import Mathlib

/-!
Verification development for the memory-management core of the os_test kernel
(src/memory/{physical,paging,virt}.rs).

The Rust code is shallowly embedded:
* `u64` values become `Nat` (the operations proved about never wrap at 2^64;
  partial operations that would panic return `Option`, with `none` = panic/halt);
* the fixed 8388608-entry frame bitmap becomes a function `Nat → Bool` read and
  written only at indices < `BITMAP_SIZE`, with every out-of-bounds array access
  of the Rust code modelled as a panic (`none`);
* the live 4-level page-table hierarchy, which the Rust code reaches by casting
  direct-mapped physical addresses to `&mut PageTable`, becomes an explicit
  arena `tables : Nat → Nat → Nat` keyed by the physical address of a table and
  the entry index (the "structured region accessor" model from the design
  notes); the active-table register (cr3) is the `root` field;
* the byte writes `map_physical` performs through freshly created mappings act
  on a flat virtual byte memory `vmem : Nat → Nat`;
* `invlpg` (translation-cache invalidation) has no effect on any modelled
  state, so it is omitted.
-/

namespace OsTest

/-! ## Constants (paging.rs, physical.rs) -/

def PAGE_SIZE : Nat := 4096

def PAGE_TABLE_ENTRY_NUM : Nat := 512

/-- BITMAP_SIZE from physical.rs: the bitmap can handle up to 32 GiB of ram. -/
def BITMAP_SIZE : Nat := 8388608

/-- Page::MAX_PAGE_CANOINCAL_NUM (sic) = 512 * 512 * 512 * 512 = 2^36. -/
def MAX_PAGE_CANONICAL_NUM : Nat :=
  PAGE_TABLE_ENTRY_NUM * PAGE_TABLE_ENTRY_NUM * PAGE_TABLE_ENTRY_NUM * PAGE_TABLE_ENTRY_NUM

/-- Page::CANOINCAL_MASK (sic) = 0xfffffffff, the low 36 bits. -/
def CANONICAL_MASK : Nat := 0xfffffffff

/-! ## Address types (virt.rs, physical.rs) -/

/-- VirtAddr::is_valid: `let last_16_bits = self.0 >> 48; last_16_bits == 0xffff || last_16_bits == 0`. -/
def is_valid (a : Nat) : Bool :=
  a >>> 48 == 0xffff || a >>> 48 == 0

/-- Modelled from the spec (glossary "Canonical address" and §3): a virtual
address is canonical iff bits 48-63 are all identical to bit 47.  This is the
claimed behaviour of `VirtAddr::is_valid`, written from the spec's words for
comparison with the source definition `is_valid` above. -/
def isCanonicalSpec (a : Nat) : Bool :=
  (a >>> 48) % 2 ^ 16 == (if a.testBit 47 then 2 ^ 16 - 1 else 0)

/-- PhyAddr::align_down(alignment): `self.0 - self.0 % alignment`. -/
def align_down (a alignment : Nat) : Nat := a - a % alignment

/-! ## PageTableEntry (paging.rs)

A `PageTableEntry` is a raw 64-bit word, embedded as a `Nat`. -/

/-- PageTableEntry::physical_address_mask. -/
def physicalAddressMask : Nat := 0x000ffffffffff000

/-- Complement of `physicalAddressMask` inside a 64-bit word: `!Self::physical_address_mask()`. -/
def flagsMask : Nat := 0xfff0000000000fff

/-- PageTableEntry::addr: `self.entry & Self::physical_address_mask()`. -/
def entryAddr (e : Nat) : Nat := e &&& physicalAddressMask

/-- PageTableEntry::flags: `self.entry & !Self::physical_address_mask()` (bits kept by bitflags). -/
def entryFlags (e : Nat) : Nat := e &&& flagsMask

def FLAG_PRESENT : Nat := 1
def FLAG_WRITABLE : Nat := 2
def FLAG_HUGE_PAGE : Nat := 128

/-- PageTableEntry::present: `self.flags().contains(PageTableEntryFlags::PRESENT)`. -/
def entryPresent (e : Nat) : Bool := entryFlags e &&& FLAG_PRESENT == FLAG_PRESENT

/-- The HUGE_PAGE test made by PageTable::page_entry:
`flags().contains(PageTableEntryFlags::HUGE_PAGE)`. -/
def entryHuge (e : Nat) : Bool := entryFlags e &&& FLAG_HUGE_PAGE == FLAG_HUGE_PAGE

/-! ## Page (paging.rs)

A `Page` is its `num : u64`, embedded as a `Nat`. -/

/-- Page::canonical_num: `(self.num & Self::CANOINCAL_MASK) as usize`. -/
def canonicalNum (num : Nat) : Nat := num &&& CANONICAL_MASK

def level4Idx (num : Nat) : Nat :=
  canonicalNum num / (PAGE_TABLE_ENTRY_NUM * PAGE_TABLE_ENTRY_NUM * PAGE_TABLE_ENTRY_NUM)

def level3Idx (num : Nat) : Nat :=
  (canonicalNum num / (PAGE_TABLE_ENTRY_NUM * PAGE_TABLE_ENTRY_NUM)) % PAGE_TABLE_ENTRY_NUM

def level2Idx (num : Nat) : Nat :=
  (canonicalNum num / PAGE_TABLE_ENTRY_NUM) % PAGE_TABLE_ENTRY_NUM

def level1Idx (num : Nat) : Nat :=
  canonicalNum num % PAGE_TABLE_ENTRY_NUM

/-- Page::next_by: `Some(num + k)` when `canonical_num + k < MAX_PAGE_CANOINCAL_NUM`. -/
def nextBy (num k : Nat) : Option Nat :=
  if canonicalNum num + k < MAX_PAGE_CANONICAL_NUM then some (num + k) else none

/-! ## The physical frame allocator (physical.rs) -/

/-- BasicPhysicalAllocator: the fixed-capacity bitmap plus the configured
physical base `offset` and usable byte span `limit`.  Invariant of the Rust
code: bit `i` set ⇔ frame at `offset + i * frame_size` is in use. -/
structure BasicPhysicalAllocator where
  bitmap : Nat → Bool
  offset : Nat
  limit : Nat

/-- frame_size() is the fixed constant 4096. -/
def frame_size : Nat := 4096

/-- The linear scan in allocate_frame:
`bitmap.iter().enumerate().find(|&(_i, &b)| b == false).map(|(i, _)| i)`.
`findClearAux b s fuel` scans indices `s, s+1, …, s+fuel-1`. -/
def findClearAux (b : Nat → Bool) : Nat → Nat → Option Nat
  | _, 0 => none
  | s, fuel + 1 => if b s then findClearAux b (s + 1) fuel else some s

def findFirstClear (b : Nat → Bool) : Option Nat := findClearAux b 0 BITMAP_SIZE

/-- BasicPhysicalAllocator::allocate_frame.  On success sets the first clear
bit and returns `(index * frame_size) + offset`; when every bit is set it
returns the physical address 0 and leaves the allocator unchanged. -/
def allocate_frame (a : BasicPhysicalAllocator) : Nat × BasicPhysicalAllocator :=
  match findFirstClear a.bitmap with
  | some index =>
      (index * frame_size + a.offset,
       { a with bitmap := fun j => if j = index then true else a.bitmap j })
  | none => (0, a)

/-- BasicPhysicalAllocator::free_frame.  `none` models a panic: misaligned
address, `frame - offset` underflow (which in the Rust code ends in an
out-of-bounds index either way), an out-of-bounds bitmap index, or a double
free. -/
def free_frame (a : BasicPhysicalAllocator) (frame : Nat) : Option BasicPhysicalAllocator :=
  if frame % frame_size ≠ 0 then none
  else if frame < a.offset then none
  else
    let index := (frame - a.offset) / frame_size
    if index < BITMAP_SIZE then
      if a.bitmap index = false then none
      else some { a with bitmap := fun j => if j = index then false else a.bitmap j }
    else none

/-- The first loop of alloc_phy_addr: scan `frame_count` bits starting at
`index`; `some true` = a used frame was found (the function returns None),
`some false` = all clear, `none` = out-of-bounds bitmap access (panic). -/
def checkRange (b : Nat → Bool) : Nat → Nat → Option Bool
  | _, 0 => some false
  | index, count + 1 =>
      if index < BITMAP_SIZE then
        if b index then some true else checkRange b (index + 1) count
      else none

/-- The second loop of alloc_phy_addr: mark `count` bits from `index` used. -/
def markRange (b : Nat → Bool) (index count : Nat) : Nat → Bool :=
  fun j => if index ≤ j ∧ j < index + count then true else b j

/-- BasicPhysicalAllocator::alloc_phy_addr.  Outer `none` = panic (misaligned
address, or an out-of-bounds bitmap access — in the Rust code `phy_addr`
below `offset` underflows into an out-of-bounds index); `some (none, a)` =
returned `None` with the allocator untouched; `some (some phy_addr, a')` =
success. -/
def alloc_phy_addr (a : BasicPhysicalAllocator) (phy_addr frame_count : Nat) :
    Option (Option Nat × BasicPhysicalAllocator) :=
  if phy_addr % frame_size ≠ 0 then none
  else if phy_addr < a.offset then none
  else
    let index := (phy_addr - a.offset) / frame_size
    match checkRange a.bitmap index frame_count with
    | none => none
    | some true => some (none, a)
    | some false =>
        some (some phy_addr, { a with bitmap := markRange a.bitmap index frame_count })

/-! ## The machine state seen by the page allocator -/

/-- The whole state mutated by the virtual page allocator: the physical
allocator and cursor guarded by the mutex (BasicPageAllocatorInner), the
active page-table register (cr3) and the direct-mapped table arena, and the
flat virtual byte memory written by map_physical. -/
structure MachineState where
  phys : BasicPhysicalAllocator
  lastPageAlloc : Nat
  root : Nat
  tables : Nat → Nat → Nat
  vmem : Nat → Nat

def setEntry (t : Nat → Nat → Nat) (a i v : Nat) : Nat → Nat → Nat :=
  fun a' i' => if a' = a ∧ i' = i then v else t a' i'

/-- PageTable::clear_all_entries on the table at physical address `a`. -/
def clearTable (t : Nat → Nat → Nat) (a : Nat) : Nat → Nat → Nat :=
  fun a' i' => if a' = a then 0 else t a' i'

/-! ## Page-table walks (paging.rs) -/

inductive PageEntryError where
  | hugePage : PageEntryError
  | pageTableLevelIsNotPresent (level : Nat) : PageEntryError
  deriving DecidableEq

/-- PageTable::page_entry: read-only walk from the root table down to the
level-1 entry.  Mirrors the `page_level` bookkeeping of the source: the
level is 4 before the level-4 entry is known present, then 3, then 2; the
HUGE_PAGE test on the level-2 entry precedes its present test; when the
level-2 entry is present the level-1 entry is returned without any further
check. -/
def page_entry (t : Nat → Nat → Nat) (root page : Nat) : Except PageEntryError Nat :=
  let e4 := t root (level4Idx page)
  if entryPresent e4 then
    let e3 := t (entryAddr e4) (level3Idx page)
    if entryPresent e3 then
      let e2 := t (entryAddr e3) (level2Idx page)
      if entryHuge e2 then .error .hugePage
      else if entryPresent e2 then
        .ok (t (entryAddr e2) (level1Idx page))
      else .error (.pageTableLevelIsNotPresent 2)
    else .error (.pageTableLevelIsNotPresent 3)
  else .error (.pageTableLevelIsNotPresent 4)

/-- PageTable::page_entry_mut, reduced to the location `(table address, index)`
of the returned `&mut PageTableEntry`.  Unlike page_entry it never looks at
HUGE_PAGE. -/
def page_entry_mut_loc (t : Nat → Nat → Nat) (root page : Nat) : Option (Nat × Nat) :=
  let e4 := t root (level4Idx page)
  if entryPresent e4 then
    let e3 := t (entryAddr e4) (level3Idx page)
    if entryPresent e3 then
      let e2 := t (entryAddr e3) (level2Idx page)
      if entryPresent e2 then
        some (entryAddr e2, level1Idx page)
      else none
    else none
  else none

/-- PageTable::is_present. -/
def is_present (t : Nat → Nat → Nat) (root page : Nat) : Bool :=
  match page_entry t root page with
  | .ok p => entryPresent p
  | .error .hugePage => true
  | .error (.pageTableLevelIsNotPresent _) => false

/-- One walk-or-create step of map_page_unchecked: if the entry at
`(tbl, idx)` is not present, allocate a frame, install it with `set_addr`
(whose alignment assert is the `frame % PAGE_SIZE = 0` test; failure is a
panic, `none`) and zero the table the entry now points to. -/
def ensureEntry (m : MachineState) (tbl idx flags : Nat) : Option MachineState :=
  if entryPresent (m.tables tbl idx) then some m
  else
    let p := allocate_frame m.phys
    if p.1 % PAGE_SIZE = 0 then
      let v := p.1 ||| flags
      some { m with
             phys := p.2,
             tables := clearTable (setEntry m.tables tbl idx v) (entryAddr v) }
    else none

/-- PageTable::map_page_unchecked.  The level-3/2/1 table addresses are the
addresses held by the borrowed parent entries after any creation, exactly as
the Rust re-reads them through `as_page_table_mut`.  The final `set_addr`
alignment assert coincides with the assert at the top of the function, so a
single `phy % PAGE_SIZE` test models both. -/
def map_page_unchecked (m0 : MachineState) (page phy flags : Nat) : Option MachineState :=
  if phy % PAGE_SIZE = 0 then
    match ensureEntry m0 m0.root (level4Idx page) flags with
    | none => none
    | some m1 =>
        let a3 := entryAddr (m1.tables m1.root (level4Idx page))
        match ensureEntry m1 a3 (level3Idx page) flags with
        | none => none
        | some m2 =>
            let a2 := entryAddr (m2.tables a3 (level3Idx page))
            match ensureEntry m2 a2 (level2Idx page) flags with
            | none => none
            | some m3 =>
                let a1 := entryAddr (m3.tables a2 (level2Idx page))
                some { m3 with
                       tables := setEntry m3.tables a1 (level1Idx page)
                         (phy ||| flags) }
  else none

/-! ## Free-run search (paging.rs) -/

/-- The while loop of PageTable::find_free_pages over an abstract presence
predicate `pres` (the source's `self.is_present`).  `fuel` only bounds the
recursion; every call below supplies `MAX_PAGE_CANONICAL_NUM + 1`, which the
`canonical_num + 1 < MAX` guard makes sufficient. -/
def findFreeAux (pres : Nat → Bool) (numPages : Nat) :
    Nat → Nat → Nat → Nat → Option (Nat × Nat)
  | _, _, _, 0 => none
  | firstPage, page, count, fuel + 1 =>
      if count < numPages ∧ canonicalNum page + 1 < MAX_PAGE_CANONICAL_NUM then
        let next := page + 1
        if pres next then
          findFreeAux pres numPages firstPage next 0 fuel
        else
          findFreeAux pres numPages (if count = 0 then next else firstPage) next (count + 1) fuel
      else
        if count = numPages then some (firstPage, page) else none

/-- PageTable::find_free_pages, returning `(start, end)` of the PageIter. -/
def find_free_pages (pres : Nat → Bool) (startPage numPages : Nat) : Option (Nat × Nat) :=
  findFreeAux pres numPages startPage startPage (if pres startPage then 0 else 1)
    (MAX_PAGE_CANONICAL_NUM + 1)

/-! ## The virtual page allocator (virt.rs) -/

structure PageAllocation where
  first_page : Nat
  page_amount : Nat
  deriving DecidableEq

/-- The `for page in free_pages` loop of alloc_pages.  Iterating the PageIter
calls `next().unwrap()` on each yielded page before its body runs, so every
processed page must have a canonical successor (else panic = `none`). -/
def allocPagesLoop (m : MachineState) : Nat → Nat → Option MachineState
  | _, 0 => some m
  | page, count + 1 =>
      if canonicalNum page + 1 < MAX_PAGE_CANONICAL_NUM then
        let p := allocate_frame m.phys
        match map_page_unchecked { m with phys := p.2 } page p.1
            (FLAG_PRESENT ||| FLAG_WRITABLE) with
        | none => none
        | some m1 => allocPagesLoop m1 (page + 1) count
      else none

/-- BasicPageAllocator::alloc_pages. -/
def alloc_pages (m0 : MachineState) (page_amount : Nat) :
    Option (Option PageAllocation × MachineState) :=
  match find_free_pages (fun p => is_present m0.tables m0.root p) m0.lastPageAlloc page_amount with
  | none => some (none, m0)
  | some (first, last) =>
      let m1 := { m0 with lastPageAlloc := last }
      match allocPagesLoop m1 first (last + 1 - first) with
      | none => none
      | some m2 => some (some ⟨first, page_amount⟩, m2)

/-- The `for page in pages_to_free` loop of dealloc_pages: look up the
level-1 entry (`unwrap` panics when the chain is broken), free the frame at
its address, clear it. -/
def deallocPagesLoop (m : MachineState) : Nat → Nat → Option MachineState
  | _, 0 => some m
  | page, count + 1 =>
      if canonicalNum page + 1 < MAX_PAGE_CANONICAL_NUM then
        match page_entry_mut_loc m.tables m.root page with
        | none => none
        | some (a1, idx) =>
            match free_frame m.phys (entryAddr (m.tables a1 idx)) with
            | none => none
            | some phys1 =>
                deallocPagesLoop
                  { m with phys := phys1, tables := setEntry m.tables a1 idx 0 }
                  (page + 1) count
      else none

/-- BasicPageAllocator::dealloc_pages.  `page_amount = 0` underflows the
`page_amount - 1` subtraction (panic), and the `next_by(...).unwrap()`
panics when the end of the range is not canonical. -/
def dealloc_pages (m : MachineState) (alloc : PageAllocation) : Option MachineState :=
  if alloc.page_amount = 0 then none
  else
    match nextBy alloc.first_page (alloc.page_amount - 1) with
    | none => none
    | some last => deallocPagesLoop m alloc.first_page (last + 1 - alloc.first_page)

/-- The rollback loop of map_physical: free `count` frames starting at
`addr`, stepping by frame_size. -/
def freeFramesLoop (a : BasicPhysicalAllocator) : Nat → Nat → Option BasicPhysicalAllocator
  | _, 0 => some a
  | addr, count + 1 =>
      match free_frame a addr with
      | none => none
      | some a1 => freeFramesLoop a1 (addr + frame_size) count

/-- The sentinel physical address special-cased by map_physical. -/
def LOCAL_APIC_BASE : Nat := 0xfee00000

/-- The byte-zeroing loop `for i in 0..self.page_size() { *byte = 0 }` run on
the virtual range `[base, base + PAGE_SIZE)`. -/
def zeroPage (vm : Nat → Nat) (base : Nat) : Nat → Nat :=
  fun a => if base ≤ a ∧ a < base + PAGE_SIZE then 0 else vm a

/-- The mapping loop of map_physical: map each page to the running physical
cursor, and when the cursor is exactly 0xfee00000 zero the page's bytes
through the new mapping. -/
def mapPhysicalLoop (m : MachineState) : Nat → Nat → Nat → Option MachineState
  | _, _, 0 => some m
  | page, phy, count + 1 =>
      if canonicalNum page + 1 < MAX_PAGE_CANONICAL_NUM then
        match map_page_unchecked m page phy (FLAG_PRESENT ||| FLAG_WRITABLE) with
        | none => none
        | some m1 =>
            let m2 := if phy = LOCAL_APIC_BASE
              then { m1 with vmem := zeroPage m1.vmem (page * PAGE_SIZE) }
              else m1
            mapPhysicalLoop m2 (page + 1) (phy + frame_size) count
      else none

/-- BasicPageAllocator::map_physical.  On success returns the allocation and
`VirtAddr::from(first_page).0 + align_offset`; map_physical never moves the
`last_page_alloc` cursor. -/
def map_physical (m : MachineState) (addr page_amount : Nat) :
    Option (Option (PageAllocation × Nat) × MachineState) :=
  let aligned := align_down addr frame_size
  let align_offset := addr - aligned
  let add_page := if align_offset = 0 then 0 else 1
  let pa := page_amount + add_page
  match alloc_phy_addr m.phys aligned pa with
  | none => none
  | some (none, phys1) => some (none, { m with phys := phys1 })
  | some (some phy, phys1) =>
      let m1 := { m with phys := phys1 }
      match find_free_pages (fun p => is_present m1.tables m1.root p) m1.lastPageAlloc pa with
      | none =>
          match freeFramesLoop m1.phys phy pa with
          | none => none
          | some phys2 => some (none, { m1 with phys := phys2 })
      | some (first, last) =>
          match mapPhysicalLoop m1 first phy (last + 1 - first) with
          | none => none
          | some m2 =>
              some (some (⟨first, pa⟩, first * PAGE_SIZE + align_offset), m2)

/-! ## Bit-level helper lemmas -/

lemma entryFlags_and (x c : Nat) (hc : flagsMask &&& c = c) :
    entryFlags x &&& c = x &&& c := by
  unfold entryFlags
  rw [Nat.and_assoc, hc]

lemma entryPresent_eq_mod_two (e : Nat) : entryPresent e = (e % 2 == 1) := by
  unfold entryPresent FLAG_PRESENT
  rw [entryFlags_and e 1 (by decide), Nat.and_one_is_mod]

lemma entryPresent_lor_pw (x : Nat) :
    entryPresent (x ||| (FLAG_PRESENT ||| FLAG_WRITABLE)) = true := by
  rw [entryPresent_eq_mod_two]
  have h0 : (x ||| (FLAG_PRESENT ||| FLAG_WRITABLE)).testBit 0 = true := by
    rw [Nat.testBit_lor]
    simp [FLAG_PRESENT, FLAG_WRITABLE]
  rw [Nat.testBit_zero] at h0
  simp [of_decide_eq_true h0]

lemma testBit_physicalAddressMask (i : Nat) :
    physicalAddressMask.testBit i = (decide (12 ≤ i) && decide (i < 52)) := by
  have h : physicalAddressMask = (2 ^ 40 - 1) <<< 12 := by decide
  rw [h, Nat.testBit_shiftLeft, Nat.testBit_two_pow_sub_one]
  by_cases h12 : 12 ≤ i
  · have : (i - 12 < 40) = (i < 52) := by
      apply propext; omega
    simp [h12, this]
  · simp [h12]

lemma testBit_of_aligned (phy i : Nat) (h : phy % PAGE_SIZE = 0) (hi : i < 12) :
    phy.testBit i = false := by
  obtain ⟨q, rfl⟩ : ∃ q, phy = 2 ^ 12 * q := ⟨phy / 4096, by unfold PAGE_SIZE at h; omega⟩
  rw [Nat.testBit_to_div_mod]
  have hdiv : 2 ^ 12 * q / 2 ^ i = 2 ^ (12 - i) * q := by
    rw [show (2 : Nat) ^ 12 = 2 ^ i * 2 ^ (12 - i) by rw [← pow_add]; congr 1; omega,
        Nat.mul_assoc, Nat.mul_div_cancel_left _ (Nat.pos_pow_of_pos i (by omega))]
  rw [hdiv]
  have : 2 ^ (12 - i) * q % 2 = 0 := by
    rw [show 12 - i = (11 - i) + 1 by omega, pow_succ]
    rw [show 2 ^ (11 - i) * 2 * q = 2 * (2 ^ (11 - i) * q) by ring]
    exact Nat.mul_mod_right 2 _
  simp [this]

lemma entryAddr_lor_pw (phy : Nat) (hal : phy % PAGE_SIZE = 0) (h52 : phy < 2 ^ 52) :
    entryAddr (phy ||| (FLAG_PRESENT ||| FLAG_WRITABLE)) = phy := by
  unfold entryAddr
  apply Nat.eq_of_testBit_eq
  intro i
  rw [Nat.testBit_land, Nat.testBit_lor, testBit_physicalAddressMask]
  have h3 : (FLAG_PRESENT ||| FLAG_WRITABLE : Nat) = 2 ^ 2 - 1 := by decide
  rw [h3, Nat.testBit_two_pow_sub_one]
  rcases Nat.lt_or_ge i 12 with hlow | hmid
  · rw [testBit_of_aligned phy i hal hlow]
    simp; omega
  · rcases Nat.lt_or_ge i 52 with hin | hhigh
    · have : ¬ i < 2 := by omega
      simp [this, hmid, hin]
    · have hb : phy.testBit i = false :=
        Nat.testBit_lt_two_pow (lt_of_lt_of_le h52 (Nat.pow_le_pow_right (by omega) hhigh))
      have : ¬ i < 52 := by omega
      simp [this, hb]

lemma entryPresent_zero : entryPresent 0 = false := by decide

/-! ## Lemmas about the allocate_frame scan -/

lemma findClearAux_some_of_first (b : Nat → Bool) :
    ∀ fuel s i, s ≤ i → i < s + fuel →
      (∀ j, s ≤ j → j < i → b j = true) → b i = false →
      findClearAux b s fuel = some i := by
  intro fuel
  induction fuel with
  | zero => intro s i h1 h2 _ _; omega
  | succ f ih =>
      intro s i h1 h2 hall hi
      by_cases hs : b s = true
      · have hne : s ≠ i := by
          intro e; rw [e, hi] at hs; exact Bool.noConfusion hs
        simp only [findClearAux, hs, if_true]
        exact ih (s + 1) i (by omega) (by omega) (fun j hj1 hj2 => hall j (by omega) hj2) hi
      · have hs' : b s = false := by revert hs; cases b s <;> simp
        have hsi : s = i := by
          by_contra hne
          have := hall s (le_refl s) (by omega)
          rw [this] at hs'; exact Bool.noConfusion hs'
        subst hsi
        simp [findClearAux, hs']

lemma findClearAux_none_all (b : Nat → Bool) :
    ∀ fuel s, findClearAux b s fuel = none →
      ∀ j, s ≤ j → j < s + fuel → b j = true := by
  intro fuel
  induction fuel with
  | zero => intro s _ j h1 h2; omega
  | succ f ih =>
      intro s h j h1 h2
      by_cases hs : b s = true
      · simp only [findClearAux, hs, if_true] at h
        by_cases hjs : j = s
        · rw [hjs]; exact hs
        · exact ih (s + 1) h j (by omega) (by omega)
      · have hs' : b s = false := by revert hs; cases b s <;> simp
        simp [findClearAux, hs'] at h

lemma findClearAux_some_props (b : Nat → Bool) :
    ∀ fuel s i, findClearAux b s fuel = some i →
      s ≤ i ∧ i < s + fuel ∧ b i = false := by
  intro fuel
  induction fuel with
  | zero => intro s i h; simp [findClearAux] at h
  | succ f ih =>
      intro s i h
      by_cases hs : b s = true
      · simp only [findClearAux, hs, if_true] at h
        have := ih (s + 1) i h
        exact ⟨by omega, by omega, this.2.2⟩
      · have hs' : b s = false := by revert hs; cases b s <;> simp
        simp [findClearAux, hs'] at h
        subst h
        exact ⟨le_refl s, by omega, hs'⟩

lemma allocate_frame_first (a : BasicPhysicalAllocator) (i : Nat)
    (hi : i < BITMAP_SIZE) (hfree : a.bitmap i = false)
    (hfirst : ∀ j, j < i → a.bitmap j = true) :
    allocate_frame a =
      (i * frame_size + a.offset,
       { a with bitmap := fun j => if j = i then true else a.bitmap j }) := by
  unfold allocate_frame findFirstClear
  rw [findClearAux_some_of_first a.bitmap BITMAP_SIZE 0 i (Nat.zero_le i) (by omega)
        (fun j _ hj => hfirst j hj) hfree]

lemma allocate_frame_of_exists_free (a : BasicPhysicalAllocator)
    (hex : ∃ j, j < BITMAP_SIZE ∧ a.bitmap j = false) :
    ∃ i, i < BITMAP_SIZE ∧ a.bitmap i = false ∧
      allocate_frame a =
        (i * frame_size + a.offset,
         { a with bitmap := fun j => if j = i then true else a.bitmap j }) := by
  cases h : findFirstClear a.bitmap with
  | none =>
      exfalso
      obtain ⟨j, hj, hbj⟩ := hex
      have := findClearAux_none_all a.bitmap BITMAP_SIZE 0 h j (Nat.zero_le j) (by omega)
      rw [this] at hbj; exact Bool.noConfusion hbj
  | some i =>
      obtain ⟨_, hlt, hfree⟩ := findClearAux_some_props a.bitmap BITMAP_SIZE 0 i h
      refine ⟨i, by omega, hfree, ?_⟩
      unfold allocate_frame findFirstClear
      rw [show findClearAux a.bitmap 0 BITMAP_SIZE = some i from h]

/-! ## Lemmas about the alloc_phy_addr loops -/

lemma checkRange_all_clear (b : Nat → Bool) :
    ∀ count index, index + count ≤ BITMAP_SIZE →
      (∀ k, k < count → b (index + k) = false) →
      checkRange b index count = some false := by
  intro count
  induction count with
  | zero => intro index _ _; rfl
  | succ c ih =>
      intro index hb hall
      have h0 : b index = false := by
        have := hall 0 (by omega); simpa using this
      have hidx : index < BITMAP_SIZE := by omega
      simp only [checkRange, hidx, if_true, h0, Bool.false_eq_true, if_false]
      exact ih (index + 1) (by omega)
        (fun k hk => by have := hall (k + 1) (by omega); rwa [show index + (k + 1) = index + 1 + k by omega] at this)

lemma checkRange_found (b : Nat → Bool) :
    ∀ count index, index + count ≤ BITMAP_SIZE →
      (∃ k, k < count ∧ b (index + k) = true) →
      checkRange b index count = some true := by
  intro count
  induction count with
  | zero => intro index _ h; obtain ⟨k, hk, _⟩ := h; omega
  | succ c ih =>
      intro index hb hex
      have hidx : index < BITMAP_SIZE := by omega
      by_cases h0 : b index = true
      · simp [checkRange, hidx, h0]
      · have h0' : b index = false := by revert h0; cases b index <;> simp
        simp only [checkRange, hidx, if_true, h0', Bool.false_eq_true, if_false]
        obtain ⟨k, hk, hbk⟩ := hex
        have hk0 : k ≠ 0 := by
          intro e; subst e; simp at hbk; rw [hbk] at h0'; exact Bool.noConfusion h0'
        exact ih (index + 1) (by omega)
          ⟨k - 1, by omega, by rwa [show index + 1 + (k - 1) = index + k by omega]⟩

lemma markRange_get (b : Nat → Bool) (index count j : Nat) :
    markRange b index count j = if index ≤ j ∧ j < index + count then true else b j := rfl

/-- C6 (confirmed): on a frame-aligned address whose frame range lies inside
the tracked bitmap, alloc_phy_addr returns none and leaves the allocator
(and hence the bitmap) completely untouched when any frame of the range is
already used, and otherwise marks exactly the whole range used and returns
the requested address.  (Out-of-range accesses halt — Rust array bounds
panic — and so never return at all; the in-range hypotheses name the domain
on which the claim's None/Some dichotomy is defined.) -/
theorem C6_alloc_phy_addr_atomic (a : BasicPhysicalAllocator) (phy cnt : Nat)
    (hal : phy % frame_size = 0) (hof : a.offset ≤ phy)
    (hbound : (phy - a.offset) / frame_size + cnt ≤ BITMAP_SIZE) :
    ((∃ k, k < cnt ∧ a.bitmap ((phy - a.offset) / frame_size + k) = true) →
        alloc_phy_addr a phy cnt = some (none, a)) ∧
    ((∀ k, k < cnt → a.bitmap ((phy - a.offset) / frame_size + k) = false) →
        alloc_phy_addr a phy cnt = some (some phy,
          { a with bitmap := markRange a.bitmap ((phy - a.offset) / frame_size) cnt })) := by
  constructor
  · intro hused
    unfold alloc_phy_addr
    rw [if_neg (by omega), if_neg (by omega)]
    simp only [checkRange_found a.bitmap cnt ((phy - a.offset) / frame_size) hbound hused]
  · intro hclear
    unfold alloc_phy_addr
    rw [if_neg (by omega), if_neg (by omega)]
    simp only [checkRange_all_clear a.bitmap cnt ((phy - a.offset) / frame_size) hbound hclear]

def W6 : BasicPhysicalAllocator where
  bitmap := fun j => j == 3
  offset := 0
  limit := 0

/-- Witness for C6 at a concrete allocator: frame 3 is used, so reserving
frames 3..3 fails with the bitmap untouched, while reserving the free frames
5..6 succeeds and marks exactly those two frames. -/
theorem C6_witness :
    alloc_phy_addr W6 12288 1 = some (none, W6) ∧
    alloc_phy_addr W6 20480 2 = some (some 20480,
      { W6 with bitmap := markRange W6.bitmap 5 2 }) := by
  constructor
  · exact (C6_alloc_phy_addr_atomic W6 12288 1 (by decide) (by decide) (by decide)).1
      ⟨0, by decide, by decide⟩
  · exact (C6_alloc_phy_addr_atomic W6 20480 2 (by decide) (by decide) (by decide)).2
      (by decide)

/-- C8 (confirmed): when every bit of the bitmap is set, allocate_frame
returns physical address 0 with the allocator unchanged — and this is the
very value a caller receives for a legitimately allocated frame at address
zero (offset 0, frame 0 free), so exhaustion is indistinguishable from it. -/
theorem C8_exhaustion_returns_zero :
    (∀ a : BasicPhysicalAllocator,
        (∀ i, i < BITMAP_SIZE → a.bitmap i = true) → allocate_frame a = (0, a)) ∧
    (∀ a : BasicPhysicalAllocator,
        a.offset = 0 → a.bitmap 0 = false → (allocate_frame a).1 = 0) := by
  constructor
  · intro a hall
    unfold allocate_frame findFirstClear
    cases h : findClearAux a.bitmap 0 BITMAP_SIZE with
    | none => rfl
    | some i =>
        obtain ⟨_, hlt, hfree⟩ := findClearAux_some_props a.bitmap BITMAP_SIZE 0 i h
        rw [hall i (by omega)] at hfree
        exact Bool.noConfusion hfree
  · intro a hoff hfree
    rw [allocate_frame_first a 0 (by decide) hfree (fun j hj => by omega), hoff]
    rfl

def W8full : BasicPhysicalAllocator where
  bitmap := fun _ => true
  offset := 4096
  limit := 4096

def W8zero : BasicPhysicalAllocator where
  bitmap := fun _ => false
  offset := 0
  limit := 4096

/-- Witness for C8: a completely full allocator yields address 0 unchanged,
and a fresh allocator based at physical 0 also hands out address 0. -/
theorem C8_witness :
    allocate_frame W8full = (0, W8full) ∧ (allocate_frame W8zero).1 = 0 :=
  ⟨C8_exhaustion_returns_zero.1 W8full (fun _ _ => rfl),
   C8_exhaustion_returns_zero.2 W8zero rfl rfl⟩

/-- C9 (confirmed): allocate_frame never consults the configured limit — for
every limit value, as soon as any clear bit exists the first clear bit i is
set and `offset + i * frame_size` is returned, even when `i * frame_size`
lies at or beyond the limit. -/
theorem C9_allocate_frame_ignores_limit (a : BasicPhysicalAllocator) (i : Nat)
    (hi : i < BITMAP_SIZE) (hfree : a.bitmap i = false)
    (hfirst : ∀ j, j < i → a.bitmap j = true) :
    ∀ l, allocate_frame { a with limit := l } =
      (i * frame_size + a.offset,
       { a with limit := l, bitmap := fun j => if j = i then true else a.bitmap j }) := by
  intro l
  exact allocate_frame_first { a with limit := l } i hi hfree hfirst

def W9 : BasicPhysicalAllocator where
  bitmap := fun j => decide (j < 5)
  offset := 0
  limit := 0

/-- Witness for C9: with frames 0..4 used, the first clear bit is 5, and the
returned address 20480 is handed out even under a limit of 12288 bytes
(20480 ≥ 12288). -/
theorem C9_witness :
    allocate_frame { W9 with limit := 12288 } =
      (20480,
       { W9 with
         limit := 12288
         bitmap := fun j => if j = 5 then true else W9.bitmap j }) :=
  C9_allocate_frame_ignores_limit W9 5 (by decide) (by decide)
    (fun j hj => decide_eq_true hj) 12288

/-! ## C2: the canonical-address check -/

/-- C2 (code bug): the address 0x0000_8000_0000_0000 has bit 47 set but bits
48-63 all clear, so it is not canonical (the property the source comments
and the spec require is_valid to test), yet is_valid accepts it because its
top 16 bits are zero. -/
theorem C2_is_valid_accepts_noncanonical :
    is_valid 0x0000800000000000 = true ∧
    isCanonicalSpec 0x0000800000000000 = false := by
  constructor <;> decide

/-! ## C3: the read-only page-table walk -/

/-- C3 (amended): page_entry either returns the level-1 entry — possibly a
non-present one — or fails with HugePage or PageTableLevelIsNotPresent with
level 4, 3 or 2; level 1 is never reported. -/
theorem C3_page_entry_shape (t : Nat → Nat → Nat) (root page : Nat) :
    (∃ e, page_entry t root page = .ok e) ∨
    page_entry t root page = .error .hugePage ∨
    (∃ l, page_entry t root page = .error (.pageTableLevelIsNotPresent l) ∧
      (l = 4 ∨ l = 3 ∨ l = 2)) := by
  simp only [page_entry]
  by_cases h4 : entryPresent (t root (level4Idx page)) = true
  · rw [if_pos h4]
    by_cases h3 : entryPresent (t (entryAddr (t root (level4Idx page))) (level3Idx page)) = true
    · rw [if_pos h3]
      by_cases hh : entryHuge (t (entryAddr (t (entryAddr (t root (level4Idx page))) (level3Idx page))) (level2Idx page)) = true
      · rw [if_pos hh]
        exact Or.inr (Or.inl rfl)
      · rw [if_neg hh]
        by_cases h2 : entryPresent (t (entryAddr (t (entryAddr (t root (level4Idx page))) (level3Idx page))) (level2Idx page)) = true
        · rw [if_pos h2]
          exact Or.inl ⟨_, rfl⟩
        · rw [if_neg h2]
          exact Or.inr (Or.inr ⟨2, rfl, Or.inr (Or.inr rfl)⟩)
    · rw [if_neg h3]
      exact Or.inr (Or.inr ⟨3, rfl, Or.inr (Or.inl rfl)⟩)
  · rw [if_neg h4]
    exact Or.inr (Or.inr ⟨4, rfl, Or.inl rfl⟩)

/-- A page-table arena whose level-4/3/2 chain for page 0 is fully present
(entries 0x101001, 0x102001, 0x103001) while the level-1 leaf table at
0x103000 is all zero. -/
def T3 : Nat → Nat → Nat := fun a i =>
  if a = 0x100000 ∧ i = 0 then 0x101001
  else if a = 0x101000 ∧ i = 0 then 0x102001
  else if a = 0x102000 ∧ i = 0 then 0x103001
  else 0

/-- Counterexample for C3 as stated: with the chain to the leaf table fully
present and the leaf entry missing (zero), page_entry returns the
non-present level-1 entry as Ok rather than failing with a level-1
PageTableLevelIsNotPresent break. -/
theorem C3_counterexample :
    page_entry T3 0x100000 0 = .ok 0 ∧ entryPresent 0 = false :=
  ⟨rfl, rfl⟩

/-! ## Lemmas about the free-run search -/

lemma canonicalNum_eq_mod (x : Nat) : canonicalNum x = x % MAX_PAGE_CANONICAL_NUM := by
  unfold canonicalNum CANONICAL_MASK MAX_PAGE_CANONICAL_NUM PAGE_TABLE_ENTRY_NUM
  rw [show (0xfffffffff : Nat) = 2 ^ 36 - 1 by norm_num, Nat.and_pow_two_sub_one_eq_mod]

lemma canonicalNum_small (x : Nat) (h : x < MAX_PAGE_CANONICAL_NUM) : canonicalNum x = x := by
  rw [canonicalNum_eq_mod]; exact Nat.mod_eq_of_lt h

lemma findFreeAux_allPresent (pres : Nat → Bool) (n startP : Nat) (hn : 1 ≤ n)
    (hall : ∀ p, startP ≤ p → pres p = true) :
    ∀ fuel fp page, startP ≤ page → findFreeAux pres n fp page 0 fuel = none := by
  intro fuel
  induction fuel with
  | zero => intro fp page _; rfl
  | succ f ih =>
      intro fp page hpage
      simp only [findFreeAux]
      by_cases hg : 0 < n ∧ canonicalNum page + 1 < MAX_PAGE_CANONICAL_NUM
      · rw [if_pos hg, if_pos (hall (page + 1) (by omega))]
        exact ih fp (page + 1) (by omega)
      · rw [if_neg hg, if_neg (by omega : ¬ (0 : Nat) = n)]

lemma findFreeAux_allAbsent (pres : Nat → Bool) (n startP : Nat)
    (hall : ∀ p, startP ≤ p → pres p = false)
    (hbound : startP + n ≤ MAX_PAGE_CANONICAL_NUM) :
    ∀ fuel count, 1 ≤ count → count ≤ n → n - count < fuel →
      findFreeAux pres n startP (startP + count - 1) count fuel =
        some (startP, startP + n - 1) := by
  intro fuel
  induction fuel with
  | zero => intro count _ _ h3; omega
  | succ f ih =>
      intro count h1 h2 h3
      simp only [findFreeAux]
      by_cases hc : count < n
      · rw [if_pos ⟨hc, by rw [canonicalNum_small _ (by omega)]; omega⟩]
        have hp : ¬ pres (startP + count - 1 + 1) = true := by
          rw [hall _ (by omega)]; exact Bool.noConfusion
        rw [if_neg hp, if_neg (by omega : ¬ count = 0),
            show startP + count - 1 + 1 = startP + (count + 1) - 1 by omega]
        exact ih (count + 1) (by omega) (by omega) (by omega)
      · have hcn : count = n := by omega
        rw [if_neg (fun hand => absurd hand.1 hc), if_pos hcn, hcn]

lemma find_free_pages_allPresent (pres : Nat → Bool) (startP n : Nat) (hn : 1 ≤ n)
    (hall : ∀ p, startP ≤ p → pres p = true) :
    find_free_pages pres startP n = none := by
  unfold find_free_pages
  rw [show (if pres startP then (0 : Nat) else 1) = 0 by rw [hall startP (le_refl _)]; decide]
  exact findFreeAux_allPresent pres n startP hn hall _ startP startP (le_refl _)

lemma find_free_pages_allAbsent (pres : Nat → Bool) (startP n : Nat) (hn : 1 ≤ n)
    (hall : ∀ p, startP ≤ p → pres p = false)
    (hbound : startP + n ≤ MAX_PAGE_CANONICAL_NUM) :
    find_free_pages pres startP n = some (startP, startP + n - 1) := by
  unfold find_free_pages
  rw [show (if pres startP then (0 : Nat) else 1) = 1 by rw [hall startP (le_refl _)]; decide]
  have h := findFreeAux_allAbsent pres n startP hall hbound
    (MAX_PAGE_CANONICAL_NUM + 1) 1 (le_refl 1) hn (by omega)
  rwa [show startP + 1 - 1 = startP by omega] at h

lemma findFreeAux_run (pres : Nat → Bool) (n : Nat) (hn : 1 ≤ n) :
    ∀ fuel fp page count f l,
      (1 ≤ count → page + 1 = fp + count ∧ ∀ k, k < count → pres (fp + k) = false) →
      findFreeAux pres n fp page count fuel = some (f, l) →
      l = f + n - 1 ∧ ∀ k, k < n → pres (f + k) = false := by
  intro fuel
  induction fuel with
  | zero => intro fp page count f l _ h; exact absurd h (by simp [findFreeAux])
  | succ fu ih =>
      intro fp page count f l hinv h
      simp only [findFreeAux] at h
      by_cases hg : count < n ∧ canonicalNum page + 1 < MAX_PAGE_CANONICAL_NUM
      · rw [if_pos hg] at h
        by_cases hp : pres (page + 1) = true
        · rw [if_pos hp] at h
          exact ih fp (page + 1) 0 f l (by omega) h
        · rw [if_neg hp] at h
          have hp' : pres (page + 1) = false := by revert hp; cases pres (page + 1) <;> simp
          by_cases hc0 : count = 0
          · rw [if_pos hc0] at h
            refine ih (page + 1) (page + 1) (count + 1) f l ?_ h
            intro _
            refine ⟨by omega, fun k hk => ?_⟩
            have hk0 : k = 0 := by omega
            rw [hk0, Nat.add_zero]; exact hp'
          · rw [if_neg hc0] at h
            refine ih fp (page + 1) (count + 1) f l ?_ h
            intro _
            obtain ⟨he, hruns⟩ := hinv (by omega)
            refine ⟨by omega, fun k hk => ?_⟩
            by_cases hkc : k < count
            · exact hruns k hkc
            · have : k = count := by omega
              rw [this, show fp + count = page + 1 by omega]
              exact hp'
      · rw [if_neg hg] at h
        by_cases hcn : count = n
        · rw [if_pos hcn] at h
          simp only [Option.some.injEq, Prod.mk.injEq] at h
          obtain ⟨hf, hl⟩ := h
          obtain ⟨he, hruns⟩ := hinv (by omega)
          subst hf; subst hl
          exact ⟨by omega, by rwa [← hcn]⟩
        · rw [if_neg hcn] at h
          exact absurd h (by simp)

lemma find_free_pages_run (pres : Nat → Bool) (startP n f l : Nat) (hn : 1 ≤ n)
    (h : find_free_pages pres startP n = some (f, l)) :
    l = f + n - 1 ∧ ∀ k, k < n → pres (f + k) = false := by
  unfold find_free_pages at h
  by_cases hs : pres startP = true
  · rw [show (if pres startP then (0 : Nat) else 1) = 0 by rw [hs]; decide] at h
    exact findFreeAux_run pres n hn _ startP startP 0 f l (by omega) h
  · have hs' : pres startP = false := by revert hs; cases pres startP <;> simp
    rw [show (if pres startP then (0 : Nat) else 1) = 1 by rw [hs']; decide] at h
    refine findFreeAux_run pres n hn _ startP startP 1 f l ?_ h
    intro _
    refine ⟨by omega, fun k hk => ?_⟩
    have : k = 0 := by omega
    rw [this, Nat.add_zero]; exact hs'

/-- C7 (confirmed): find_free_pages on a table where every page from start
onward is present returns none, and on a table where every page from start
onward is absent (and a run of n pages fits below the canonical bound)
returns the run of exactly n pages beginning at start; the definition itself
is the greedy forward scan of the source, counting consecutive non-present
pages, resetting on present pages, and stopping when the count reaches n or
the canonical page-number space runs out. -/
theorem C7_find_free_pages_scan (t : Nat → Nat → Nat) (root startP n : Nat) (hn : 1 ≤ n) :
    ((∀ p, startP ≤ p → is_present t root p = true) →
        find_free_pages (fun p => is_present t root p) startP n = none) ∧
    ((∀ p, startP ≤ p → is_present t root p = false) →
        startP + n ≤ MAX_PAGE_CANONICAL_NUM →
        find_free_pages (fun p => is_present t root p) startP n =
          some (startP, startP + n - 1)) :=
  ⟨fun hall => find_free_pages_allPresent _ startP n hn hall,
   fun hall hb => find_free_pages_allAbsent _ startP n hn hall hb⟩

/-- A table arena every entry of which is present and huge at level 2, making
every page present. -/
def T7full : Nat → Nat → Nat := fun _ _ => 0x81

/-- The empty table arena: every page absent. -/
def T7empty : Nat → Nat → Nat := fun _ _ => 0

lemma is_present_T7full (p : Nat) : is_present T7full 0 p = true := by
  simp only [is_present, page_entry, T7full]
  decide

lemma is_present_T7empty (p : Nat) : is_present T7empty 0 p = false := by
  simp only [is_present, page_entry, T7empty]
  decide

/-- Witness for C7 at concrete tables: an all-present table yields none for a
3-page request from page 1, and an all-absent table yields the run 1..3. -/
theorem C7_witness :
    find_free_pages (fun p => is_present T7full 0 p) 1 3 = none ∧
    find_free_pages (fun p => is_present T7empty 0 p) 1 3 = some (1, 3) :=
  ⟨(C7_find_free_pages_scan T7full 0 1 3 (by decide)).1 (fun p _ => is_present_T7full p),
   (C7_find_free_pages_scan T7empty 0 1 3 (by decide)).2 (fun p _ => is_present_T7empty p)
     (by decide)⟩

/-! ## Lemmas for the map_physical rollback path (C5) -/

lemma checkRange_some_false_props (b : Nat → Bool) :
    ∀ count index, checkRange b index count = some false →
      ∀ k, k < count → index + k < BITMAP_SIZE ∧ b (index + k) = false := by
  intro count
  induction count with
  | zero => intro index _ k hk; omega
  | succ c ih =>
      intro index h k hk
      by_cases hidx : index < BITMAP_SIZE
      · rw [checkRange, if_pos hidx] at h
        by_cases hb : b index = true
        · rw [if_pos hb] at h; exact absurd h (by simp)
        · have hb' : b index = false := by revert hb; cases b index <;> simp
          rw [if_neg hb] at h
          by_cases hk0 : k = 0
          · subst hk0; exact ⟨by omega, by rwa [Nat.add_zero]⟩
          · have := ih (index + 1) h (k - 1) (by omega)
            rw [show index + 1 + (k - 1) = index + k by omega] at this
            exact this
      · rw [checkRange, if_neg hidx] at h; exact absurd h (by simp)

lemma alloc_phy_addr_ok (a : BasicPhysicalAllocator) (phy cnt r : Nat)
    (a1 : BasicPhysicalAllocator)
    (h : alloc_phy_addr a phy cnt = some (some r, a1)) :
    r = phy ∧ phy % frame_size = 0 ∧ a.offset ≤ phy ∧
    a1 = { a with bitmap := markRange a.bitmap ((phy - a.offset) / frame_size) cnt } ∧
    ∀ k, k < cnt → (phy - a.offset) / frame_size + k < BITMAP_SIZE ∧
      a.bitmap ((phy - a.offset) / frame_size + k) = false := by
  unfold alloc_phy_addr at h
  by_cases hal : phy % frame_size = 0
  · rw [if_neg (by omega)] at h
    by_cases hof : phy < a.offset
    · rw [if_pos hof] at h; exact absurd h (by simp)
    · rw [if_neg hof] at h
      simp only [] at h
      cases hc : checkRange a.bitmap ((phy - a.offset) / frame_size) cnt with
      | none => rw [hc] at h; exact absurd h (by simp)
      | some bv =>
          cases bv with
          | true => rw [hc] at h; simp at h
          | false =>
              rw [hc] at h
              simp only [Option.some.injEq, Prod.mk.injEq] at h
              obtain ⟨hr, ha1⟩ := h
              exact ⟨hr.symm, hal, by omega, ha1.symm,
                checkRange_some_false_props a.bitmap cnt _ hc⟩
  · rw [if_pos (by omega)] at h; exact absurd h (by simp)

lemma free_frame_eq (a : BasicPhysicalAllocator) (frame : Nat)
    (hal : frame % frame_size = 0) (hge : a.offset ≤ frame)
    (hlt : (frame - a.offset) / frame_size < BITMAP_SIZE)
    (hset : a.bitmap ((frame - a.offset) / frame_size) = true) :
    free_frame a frame = some
      { a with bitmap := fun j =>
          if j = (frame - a.offset) / frame_size then false else a.bitmap j } := by
  unfold free_frame
  rw [if_neg (by omega), if_neg (by omega)]
  simp only [hlt, if_true, hset, Bool.true_eq_false, if_false]

lemma freeFramesLoop_restore (b0 : Nat → Bool) :
    ∀ count phy a, phy % frame_size = 0 → a.offset ≤ phy →
      (∀ k, k < count → (phy - a.offset) / frame_size + k < BITMAP_SIZE ∧
        b0 ((phy - a.offset) / frame_size + k) = false) →
      (∀ j, a.bitmap j = if (phy - a.offset) / frame_size ≤ j ∧
          j < (phy - a.offset) / frame_size + count then true else b0 j) →
      ∃ a2, freeFramesLoop a phy count = some a2 ∧ (∀ j, a2.bitmap j = b0 j) ∧
        a2.offset = a.offset ∧ a2.limit = a.limit := by
  intro count
  induction count with
  | zero =>
      intro phy a _ _ _ hbm
      refine ⟨a, rfl, fun j => ?_, rfl, rfl⟩
      have := hbm j
      rwa [if_neg (by omega)] at this
  | succ c ih =>
      intro phy a hal hge hfree hbm
      have hidx0 : (phy - a.offset) / frame_size < BITMAP_SIZE := (hfree 0 (by omega)).1
      have hcur : a.bitmap ((phy - a.offset) / frame_size) = true := by
        rw [hbm]; rw [if_pos (by omega)]
      have hff := free_frame_eq a phy hal hge hidx0 hcur
      have hstep : (phy + frame_size - a.offset) / frame_size =
          (phy - a.offset) / frame_size + 1 := by
        rw [show phy + frame_size - a.offset = (phy - a.offset) + frame_size by omega,
            Nat.add_div_right _ (by unfold frame_size; omega)]
      obtain ⟨a2, hloop, hb2, ho2, hl2⟩ := ih (phy + frame_size)
        { a with bitmap := fun j =>
            if j = (phy - a.offset) / frame_size then false else a.bitmap j }
        (by unfold frame_size at hal ⊢; omega)
        (by simp only []; omega)
        (by
          intro k hk
          simp only []
          rw [hstep]
          have := hfree (k + 1) (by omega)
          constructor
          · omega
          · rw [show (phy - a.offset) / frame_size + 1 + k =
                (phy - a.offset) / frame_size + (k + 1) by omega]
            exact this.2)
        (by
          intro j
          simp only []
          rw [hstep]
          by_cases hj : j = (phy - a.offset) / frame_size
          · rw [if_pos hj, if_neg (by omega)]
            rw [hj]
            exact ((hfree 0 (by omega)).2).symm.trans (by rw [Nat.add_zero])
          · rw [if_neg hj, hbm j]
            by_cases hin : (phy - a.offset) / frame_size ≤ j ∧
                j < (phy - a.offset) / frame_size + (c + 1)
            · rw [if_pos hin, if_pos (by omega)]
            · rw [if_neg hin, if_neg (by omega)])
      refine ⟨a2, ?_, hb2, by rw [ho2], by rw [hl2]⟩
      rw [freeFramesLoop, hff]
      exact hloop

/-- C5 (confirmed): whenever map_physical succeeds in reserving its physical
range but the search for a contiguous free virtual run fails, map_physical
returns none after freeing every frame it reserved, leaving the
physical-frame bitmap pointwise identical to its state before the call. -/
theorem C5_map_physical_rollback (m : MachineState) (addr n pa phy : Nat)
    (a1 : BasicPhysicalAllocator)
    (hpa : pa = n + (if addr - align_down addr frame_size = 0 then 0 else 1))
    (halloc : alloc_phy_addr m.phys (align_down addr frame_size) pa = some (some phy, a1))
    (hfind : find_free_pages (fun p => is_present m.tables m.root p)
        m.lastPageAlloc pa = none) :
    ∃ m2, map_physical m addr n = some (none, m2) ∧
      ∀ j, m2.phys.bitmap j = m.phys.bitmap j := by
  obtain ⟨hr, hal, hge, ha1, hfree⟩ := alloc_phy_addr_ok _ _ _ _ _ halloc
  subst hr
  simp only [map_physical]
  rw [← hpa, halloc]
  simp only []
  rw [hfind]
  obtain ⟨a2, hloop, hb2, _, _⟩ := freeFramesLoop_restore m.phys.bitmap pa
    (align_down addr frame_size) a1 hal
    (by rw [ha1]; exact hge)
    (by rw [ha1]; exact hfree)
    (by intro j; rw [ha1]; rfl)
  simp only []
  rw [hloop]
  exact ⟨_, rfl, hb2⟩

def W5 : MachineState where
  phys := { bitmap := fun _ => false, offset := 0, limit := 0 }
  lastPageAlloc := 1
  root := 0
  tables := T7full
  vmem := fun _ => 0

/-- Witness for C5: on a machine whose page table is fully populated (so no
free virtual run exists) mapping the misaligned physical address 0x2345
first reserves frames 2 and 3, then rolls the reservation back and returns
none with the bitmap restored. -/
theorem C5_witness :
    ∃ m2, map_physical W5 0x2345 1 = some (none, m2) ∧
      ∀ j, m2.phys.bitmap j = W5.phys.bitmap j :=
  C5_map_physical_rollback W5 0x2345 1 2 0x2000
    { W5.phys with bitmap := markRange W5.phys.bitmap 2 2 }
    (by decide)
    rfl
    (find_free_pages_allPresent _ 1 2 (by decide) (fun p _ => is_present_T7full p))

/-! ## Frame-preservation lemmas for the mapping loops -/

lemma allocate_frame_snd_offset (a : BasicPhysicalAllocator) :
    (allocate_frame a).2.offset = a.offset ∧ (allocate_frame a).2.limit = a.limit := by
  unfold allocate_frame
  cases findFirstClear a.bitmap <;> exact ⟨rfl, rfl⟩

lemma allocate_frame_bitmap_mono (a : BasicPhysicalAllocator) (j : Nat)
    (h : a.bitmap j = true) : (allocate_frame a).2.bitmap j = true := by
  unfold allocate_frame
  cases hf : findFirstClear a.bitmap with
  | none => exact h
  | some i =>
      simp only []
      by_cases hj : j = i
      · simp [hj]
      · simp [hj, h]

lemma ensureEntry_spec (m : MachineState) (t i f : Nat) (m' : MachineState)
    (h : ensureEntry m t i f = some m') :
    (∀ j, m.phys.bitmap j = true → m'.phys.bitmap j = true) ∧
    m'.phys.offset = m.phys.offset ∧ m'.phys.limit = m.phys.limit ∧
    m'.vmem = m.vmem ∧ m'.root = m.root ∧ m'.lastPageAlloc = m.lastPageAlloc := by
  unfold ensureEntry at h
  by_cases hp : entryPresent (m.tables t i) = true
  · rw [if_pos hp] at h
    have hm : m = m' := by injection h
    subst hm
    exact ⟨fun _ hj => hj, rfl, rfl, rfl, rfl, rfl⟩
  · rw [if_neg hp] at h
    by_cases hfr : (allocate_frame m.phys).1 % PAGE_SIZE = 0
    · rw [if_pos hfr] at h
      simp only [Option.some.injEq] at h
      subst h
      exact ⟨fun j hj => allocate_frame_bitmap_mono m.phys j hj,
        (allocate_frame_snd_offset m.phys).1, (allocate_frame_snd_offset m.phys).2,
        rfl, rfl, rfl⟩
    · rw [if_neg hfr] at h
      exact absurd h (by simp)

lemma map_page_unchecked_spec (m : MachineState) (page phy f : Nat) (m' : MachineState)
    (h : map_page_unchecked m page phy f = some m') :
    (∀ j, m.phys.bitmap j = true → m'.phys.bitmap j = true) ∧
    m'.phys.offset = m.phys.offset ∧ m'.phys.limit = m.phys.limit ∧
    m'.vmem = m.vmem ∧ m'.root = m.root ∧ m'.lastPageAlloc = m.lastPageAlloc := by
  unfold map_page_unchecked at h
  by_cases hal : phy % PAGE_SIZE = 0
  · rw [if_pos hal] at h
    cases h1 : ensureEntry m m.root (level4Idx page) f with
    | none => rw [h1] at h; exact absurd h (by simp)
    | some m1 =>
        rw [h1] at h
        simp only [] at h
        cases h2 : ensureEntry m1 (entryAddr (m1.tables m1.root (level4Idx page)))
            (level3Idx page) f with
        | none => rw [h2] at h; exact absurd h (by simp)
        | some m2 =>
            rw [h2] at h
            simp only [] at h
            cases h3 : ensureEntry m2
                (entryAddr (m2.tables (entryAddr (m1.tables m1.root (level4Idx page)))
                  (level3Idx page)))
                (level2Idx page) f with
            | none => rw [h3] at h; exact absurd h (by simp)
            | some m3 =>
                rw [h3] at h
                simp only [Option.some.injEq] at h
                subst h
                obtain ⟨b1, o1, l1, v1, r1, p1⟩ := ensureEntry_spec _ _ _ _ _ h1
                obtain ⟨b2, o2, l2, v2, r2, p2⟩ := ensureEntry_spec _ _ _ _ _ h2
                obtain ⟨b3, o3, l3, v3, r3, p3⟩ := ensureEntry_spec _ _ _ _ _ h3
                refine ⟨fun j hj => b3 j (b2 j (b1 j hj)), ?_, ?_, ?_, ?_, ?_⟩
                · show m3.phys.offset = m.phys.offset
                  rw [o3, o2, o1]
                · show m3.phys.limit = m.phys.limit
                  rw [l3, l2, l1]
                · show m3.vmem = m.vmem
                  rw [v3, v2, v1]
                · show m3.root = m.root
                  rw [r3, r2, r1]
                · show m3.lastPageAlloc = m.lastPageAlloc
                  rw [p3, p2, p1]
  · rw [if_neg hal] at h
    exact absurd h (by simp)

lemma mapPhysicalLoop_spec :
    ∀ count m page phy m', mapPhysicalLoop m page phy count = some m' →
      (∀ j, m.phys.bitmap j = true → m'.phys.bitmap j = true) ∧
      m'.phys.offset = m.phys.offset ∧ m'.root = m.root ∧
      m'.lastPageAlloc = m.lastPageAlloc := by
  intro count
  induction count with
  | zero =>
      intro m page phy m' h
      have hm : m = m' := by injection h
      subst hm
      exact ⟨fun _ hj => hj, rfl, rfl, rfl⟩
  | succ c ih =>
      intro m page phy m' h
      rw [mapPhysicalLoop] at h
      by_cases hg : canonicalNum page + 1 < MAX_PAGE_CANONICAL_NUM
      · rw [if_pos hg] at h
        cases h1 : map_page_unchecked m page phy (FLAG_PRESENT ||| FLAG_WRITABLE) with
        | none => rw [h1] at h; exact absurd h (by simp)
        | some m1 =>
            rw [h1] at h
            simp only [] at h
            obtain ⟨b1, o1, _, _, r1, p1⟩ := map_page_unchecked_spec _ _ _ _ _ h1
            by_cases hlab : phy = LOCAL_APIC_BASE
            · rw [if_pos hlab] at h
              obtain ⟨b2, o2, r2, p2⟩ := ih _ _ _ _ h
              exact ⟨fun j hj => b2 j (b1 j hj), by rw [o2]; exact o1,
                by rw [r2]; exact r1, by rw [p2]; exact p1⟩
            · rw [if_neg hlab] at h
              obtain ⟨b2, o2, r2, p2⟩ := ih _ _ _ _ h
              exact ⟨fun j hj => b2 j (b1 j hj), by rw [o2]; exact o1,
                by rw [r2]; exact r1, by rw [p2]; exact p1⟩
      · rw [if_neg hg] at h
        exact absurd h (by simp)

/-! ## C4: map_physical on the misaligned address 0x1234 -/

/-- C4 (confirmed): whenever map_physical(0x1234, 1) succeeds it has
requested exactly 2 physical frames starting at the aligned-down address
0x1000 (the two reserved frame bits flip from clear to set), the returned
allocation spans 2 pages, and the returned virtual address is
first_page * 4096 + (0x1234 - 0x1000), whose low 12 bits are 0x234. -/
theorem C4_map_physical_misaligned (m : MachineState) (al : PageAllocation)
    (va : Nat) (m' : MachineState)
    (h : map_physical m 0x1234 1 = some (some (al, va), m')) :
    al.page_amount = 2 ∧
    va = al.first_page * PAGE_SIZE + 0x234 ∧
    va % PAGE_SIZE = 0x234 ∧
    (∃ a1, alloc_phy_addr m.phys 0x1000 2 = some (some 0x1000, a1)) ∧
    m.phys.bitmap ((0x1000 - m.phys.offset) / frame_size) = false ∧
    m.phys.bitmap ((0x1000 - m.phys.offset) / frame_size + 1) = false ∧
    m'.phys.bitmap ((0x1000 - m.phys.offset) / frame_size) = true ∧
    m'.phys.bitmap ((0x1000 - m.phys.offset) / frame_size + 1) = true := by
  simp only [map_physical] at h
  norm_num [align_down, frame_size] at h
  cases halc : alloc_phy_addr m.phys 4096 2 with
  | none => rw [halc] at h; exact absurd h (by simp)
  | some pr =>
      obtain ⟨o, phys1⟩ := pr
      cases o with
      | none => rw [halc] at h; exact absurd h (by simp)
      | some phy =>
          rw [halc] at h
          simp only [] at h
          obtain ⟨hphy, _, hge, ha1, hfree⟩ := alloc_phy_addr_ok _ _ _ _ _ halc
          subst hphy
          cases hfind : find_free_pages
              (fun p => is_present m.tables m.root p) m.lastPageAlloc 2 with
          | none =>
              rw [hfind] at h
              cases hrl : freeFramesLoop phys1 4096 2 with
              | none => rw [hrl] at h; exact absurd h (by simp)
              | some phys2 => rw [hrl] at h; exact absurd h (by simp)
          | some fl =>
              obtain ⟨first, last⟩ := fl
              rw [hfind] at h
              simp only [] at h
              cases hml : mapPhysicalLoop { m with phys := phys1 } first 4096
                  (last + 1 - first) with
              | none => rw [hml] at h; exact absurd h (by simp)
              | some m2 =>
                  rw [hml] at h
                  simp only [Option.some.injEq, Prod.mk.injEq] at h
                  obtain ⟨⟨hal', hva⟩, hm'⟩ := h
                  subst hal'; subst hva; subst hm'
                  obtain ⟨bmono, _, _, _⟩ := mapPhysicalLoop_spec _ _ _ _ _ hml
                  have hb0 := (hfree 0 (by omega)).2
                  have hb1 := (hfree 1 (by omega)).2
                  rw [Nat.add_zero] at hb0
                  have hmark0 : phys1.bitmap ((4096 - m.phys.offset) / frame_size) = true := by
                    rw [ha1]; show markRange _ _ _ _ = true
                    rw [markRange_get, if_pos (by omega)]
                  have hmark1 : phys1.bitmap ((4096 - m.phys.offset) / frame_size + 1) = true := by
                    rw [ha1]; show markRange _ _ _ _ = true
                    rw [markRange_get, if_pos (by omega)]
                  have hmod : (first * PAGE_SIZE + 564) % PAGE_SIZE = 564 := by
                    unfold PAGE_SIZE
                    omega
                  exact ⟨rfl, rfl, hmod, ⟨phys1, rfl⟩, hb0, hb1,
                    bmono _ hmark0, bmono _ hmark1⟩

def W4 : MachineState where
  phys := { bitmap := fun _ => false, offset := 0, limit := 0 }
  lastPageAlloc := 1
  root := 0x100000
  tables := fun _ _ => 0
  vmem := fun _ => 0

/-- Witness for C4: on a fresh machine the call map_physical(0x1234, 1)
succeeds, and the theorem yields the 2-frame reservation and the 0x234
low-bit offset of the returned virtual address. -/
theorem C4_witness :
    ∃ al va m', map_physical W4 0x1234 1 = some (some (al, va), m') ∧
      al.page_amount = 2 ∧ va % PAGE_SIZE = 0x234 ∧
      (∃ a1, alloc_phy_addr W4.phys 0x1000 2 = some (some 0x1000, a1)) := by
  obtain ⟨al, va, m', h⟩ :
      ∃ al va m', map_physical W4 0x1234 1 = some (some (al, va), m') :=
    ⟨_, _, _, rfl⟩
  have hc := C4_map_physical_misaligned W4 al va m' h
  exact ⟨al, va, m', h, hc.1, hc.2.2.1, hc.2.2.2.1⟩

/-! ## C10: the 0xfee00000 zeroing side effect of map_physical -/

lemma mapPhysicalLoop_vmem :
    ∀ count m page phy m', mapPhysicalLoop m page phy count = some m' →
      ∀ a2,
        ((∃ k, k < count ∧ phy + k * frame_size = LOCAL_APIC_BASE ∧
            (page + k) * PAGE_SIZE ≤ a2 ∧ a2 < (page + k) * PAGE_SIZE + PAGE_SIZE) →
          m'.vmem a2 = 0) ∧
        ((¬ ∃ k, k < count ∧ phy + k * frame_size = LOCAL_APIC_BASE ∧
            (page + k) * PAGE_SIZE ≤ a2 ∧ a2 < (page + k) * PAGE_SIZE + PAGE_SIZE) →
          m'.vmem a2 = m.vmem a2) := by
  intro count
  induction count with
  | zero =>
      intro m page phy m' h a2
      have hm : m = m' := by injection h
      subst hm
      exact ⟨fun hC => absurd hC (by rintro ⟨k, hk, _⟩; omega), fun _ => rfl⟩
  | succ c ih =>
      intro m page phy m' h a2
      rw [mapPhysicalLoop] at h
      by_cases hg : canonicalNum page + 1 < MAX_PAGE_CANONICAL_NUM
      · rw [if_pos hg] at h
        cases h1 : map_page_unchecked m page phy (FLAG_PRESENT ||| FLAG_WRITABLE) with
        | none => rw [h1] at h; exact absurd h (by simp)
        | some m1 =>
            rw [h1] at h
            simp only [] at h
            obtain ⟨_, _, _, hv1, _, _⟩ := map_page_unchecked_spec _ _ _ _ _ h1
            by_cases hlab : phy = LOCAL_APIC_BASE
            · rw [if_pos hlab] at h
              have hrec := ih _ _ _ _ h a2
              constructor
              · intro hC
                obtain ⟨k, hk, heq, hr1, hr2⟩ := hC
                by_cases hk0 : k = 0
                · subst hk0
                  by_cases hin : ∃ j, j < c ∧
                      phy + frame_size + j * frame_size = LOCAL_APIC_BASE ∧
                      (page + 1 + j) * PAGE_SIZE ≤ a2 ∧
                      a2 < (page + 1 + j) * PAGE_SIZE + PAGE_SIZE
                  · exact hrec.1 hin
                  · rw [hrec.2 hin]
                    show zeroPage m1.vmem (page * PAGE_SIZE) a2 = 0
                    unfold zeroPage
                    rw [if_pos ⟨by unfold PAGE_SIZE at hr1 ⊢; omega,
                      by unfold PAGE_SIZE at hr2 ⊢; omega⟩]
                · refine hrec.1 ⟨k - 1, by omega,
                    by unfold frame_size at heq ⊢; omega,
                    by unfold PAGE_SIZE at hr1 ⊢; omega,
                    by unfold PAGE_SIZE at hr2 ⊢; omega⟩
              · intro hC
                have hin : ¬ ∃ j, j < c ∧
                    phy + frame_size + j * frame_size = LOCAL_APIC_BASE ∧
                    (page + 1 + j) * PAGE_SIZE ≤ a2 ∧
                    a2 < (page + 1 + j) * PAGE_SIZE + PAGE_SIZE := by
                  rintro ⟨j, hj, heq, hr1, hr2⟩
                  exact hC ⟨j + 1, by omega,
                    by unfold frame_size at heq ⊢; omega,
                    by unfold PAGE_SIZE at hr1 ⊢; omega,
                    by unfold PAGE_SIZE at hr2 ⊢; omega⟩
                rw [hrec.2 hin]
                show zeroPage m1.vmem (page * PAGE_SIZE) a2 = m.vmem a2
                unfold zeroPage
                rw [if_neg (fun hr => hC ⟨0, by omega,
                    by rw [Nat.zero_mul, Nat.add_zero]; exact hlab,
                    by rw [Nat.add_zero]; exact hr.1,
                    by rw [Nat.add_zero]; exact hr.2⟩), hv1]
            · rw [if_neg hlab] at h
              have hrec := ih _ _ _ _ h a2
              constructor
              · intro hC
                obtain ⟨k, hk, heq, hr1, hr2⟩ := hC
                have hk0 : k ≠ 0 := by
                  intro e
                  subst e
                  rw [Nat.zero_mul, Nat.add_zero] at heq
                  exact hlab heq
                refine hrec.1 ⟨k - 1, by omega,
                  by unfold frame_size at heq ⊢; omega,
                  by unfold PAGE_SIZE at hr1 ⊢; omega,
                  by unfold PAGE_SIZE at hr2 ⊢; omega⟩
              · intro hC
                have hin : ¬ ∃ j, j < c ∧
                    phy + frame_size + j * frame_size = LOCAL_APIC_BASE ∧
                    (page + 1 + j) * PAGE_SIZE ≤ a2 ∧
                    a2 < (page + 1 + j) * PAGE_SIZE + PAGE_SIZE := by
                  rintro ⟨j, hj, heq, hr1, hr2⟩
                  exact hC ⟨j + 1, by omega,
                    by unfold frame_size at heq ⊢; omega,
                    by unfold PAGE_SIZE at hr1 ⊢; omega,
                    by unfold PAGE_SIZE at hr2 ⊢; omega⟩
                rw [hrec.2 hin]
                exact congrFun hv1 a2
      · rw [if_neg hg] at h
        exact absurd h (by simp)

/-- C10 (confirmed): during a successful map_physical, every mapped page
whose backing physical frame is exactly 0xfee00000 has all 4096 bytes of its
new virtual range zeroed, pages backed by any other physical address keep
their bytes, and no byte outside the mapped pages changes. -/
theorem C10_map_physical_apic_zeroing (m : MachineState) (addr n : Nat)
    (al : PageAllocation) (va : Nat) (m' : MachineState) (hn : 1 ≤ n)
    (h : map_physical m addr n = some (some (al, va), m')) :
    (∀ k, k < al.page_amount →
        align_down addr frame_size + k * frame_size = LOCAL_APIC_BASE →
        ∀ i, i < PAGE_SIZE → m'.vmem ((al.first_page + k) * PAGE_SIZE + i) = 0) ∧
    (∀ k, k < al.page_amount →
        align_down addr frame_size + k * frame_size ≠ LOCAL_APIC_BASE →
        ∀ i, i < PAGE_SIZE → m'.vmem ((al.first_page + k) * PAGE_SIZE + i) =
          m.vmem ((al.first_page + k) * PAGE_SIZE + i)) ∧
    (∀ a2, (∀ k, k < al.page_amount →
        ¬ ((al.first_page + k) * PAGE_SIZE ≤ a2 ∧
           a2 < (al.first_page + k) * PAGE_SIZE + PAGE_SIZE)) →
      m'.vmem a2 = m.vmem a2) := by
  simp only [map_physical] at h
  cases halc : alloc_phy_addr m.phys (align_down addr frame_size)
      (n + if addr - align_down addr frame_size = 0 then 0 else 1) with
  | none => rw [halc] at h; exact absurd h (by simp)
  | some pr =>
      obtain ⟨o, phys1⟩ := pr
      cases o with
      | none => rw [halc] at h; exact absurd h (by simp)
      | some phy =>
          rw [halc] at h
          simp only [] at h
          obtain ⟨hphy, _, _, _, _⟩ := alloc_phy_addr_ok _ _ _ _ _ halc
          subst hphy
          cases hfind : find_free_pages (fun p => is_present m.tables m.root p)
              m.lastPageAlloc
              (n + if addr - align_down addr frame_size = 0 then 0 else 1) with
          | none =>
              rw [hfind] at h
              cases hrl : freeFramesLoop phys1 (align_down addr frame_size)
                  (n + if addr - align_down addr frame_size = 0 then 0 else 1) with
              | none => rw [hrl] at h; exact absurd h (by simp)
              | some phys2 => rw [hrl] at h; exact absurd h (by simp)
          | some fl =>
              obtain ⟨first, last⟩ := fl
              rw [hfind] at h
              simp only [] at h
              have hpa1 : 1 ≤ n + if addr - align_down addr frame_size = 0 then 0 else 1 := by
                omega
              obtain ⟨hlast, _⟩ := find_free_pages_run _ _ _ _ _ hpa1 hfind
              subst hlast
              rw [show first + (n + if addr - align_down addr frame_size = 0 then 0 else 1)
                    - 1 + 1 - first =
                  (n + if addr - align_down addr frame_size = 0 then 0 else 1)
                by omega] at h
              cases hml : mapPhysicalLoop { m with phys := phys1 } first
                  (align_down addr frame_size)
                  (n + if addr - align_down addr frame_size = 0 then 0 else 1) with
              | none => rw [hml] at h; exact absurd h (by simp)
              | some m2 =>
                  rw [hml] at h
                  simp only [Option.some.injEq, Prod.mk.injEq] at h
                  obtain ⟨⟨hal', hva⟩, hm'⟩ := h
                  subst hva; subst hm'
                  have hchar := mapPhysicalLoop_vmem _ _ _ _ _ hml
                  have hfp : al.first_page = first := by rw [← hal']
                  have hpg : al.page_amount =
                      (n + if addr - align_down addr frame_size = 0 then 0 else 1) := by
                    rw [← hal']
                  refine ⟨?_, ?_, ?_⟩
                  · intro k hk heq i hi
                    rw [hfp]
                    exact (hchar _).1 ⟨k, by rw [hpg] at hk; exact hk, heq,
                      Nat.le_add_right _ _, Nat.add_lt_add_left hi _⟩
                  · intro k hk hne i hi
                    rw [hfp]
                    refine (hchar _).2 ?_
                    rintro ⟨j, hj, heqj, hr1, hr2⟩
                    have hjk : j = k := by
                      unfold PAGE_SIZE at hr1 hr2 hi
                      omega
                    subst hjk
                    exact hne heqj
                  · intro a2 hnone
                    refine (hchar _).2 ?_
                    rintro ⟨j, hj, _, hr1, hr2⟩
                    refine hnone j (by rw [hpg]; exact hj) ⟨?_, ?_⟩
                    · rw [hfp]; exact hr1
                    · rw [hfp]; exact hr2

def W10 : MachineState where
  phys := { bitmap := fun _ => false, offset := 0, limit := 0 }
  lastPageAlloc := 1
  root := 0x100000
  tables := fun _ _ => 0
  vmem := fun _ => 7

/-- Witness for C10: mapping the misaligned address 0xfee00300 reserves the
two frames 0xfee00000 and 0xfee01000; the page backed by 0xfee00000 (virtual
page 1) is zeroed, the page backed by 0xfee01000 (virtual page 2) keeps its
bytes, and memory outside the two mapped pages is untouched. -/
theorem C10_witness :
    ∃ al va m', map_physical W10 0xfee00300 1 = some (some (al, va), m') ∧
      m'.vmem (1 * PAGE_SIZE) = 0 ∧
      m'.vmem (2 * PAGE_SIZE) = 7 ∧
      m'.vmem 0 = 7 := by
  refine ⟨⟨1, 2⟩, 0x1300, _, rfl, ?_, ?_, ?_⟩
  · exact (C10_map_physical_apic_zeroing W10 0xfee00300 1 ⟨1, 2⟩ 0x1300 _
      (by decide) rfl).1 0 (by decide) (by decide) 0 (by decide)
  · exact ((C10_map_physical_apic_zeroing W10 0xfee00300 1 ⟨1, 2⟩ 0x1300 _
      (by decide) rfl).2.1 1 (by decide) (by decide) 0 (by decide)).trans rfl
  · refine ((C10_map_physical_apic_zeroing W10 0xfee00300 1 ⟨1, 2⟩ 0x1300 _
      (by decide) rfl).2.2 0 (fun k hk => ?_)).trans rfl
    show ¬ ((1 + k) * PAGE_SIZE ≤ 0 ∧ (0 : Nat) < (1 + k) * PAGE_SIZE + PAGE_SIZE)
    unfold PAGE_SIZE
    omega

/-! ## C1: the alloc_pages / dealloc_pages round trip

Proof-support accessors over a fixed table arena: the walk addresses and
presence bits page_entry reads for a page, written out explicitly. -/

/-- The physical address of the level-1 table reached by walking the
level-4/3/2 chain of `page` in arena `t` rooted at `root`. -/
def leafTable (t : Nat → Nat → Nat) (root page : Nat) : Nat :=
  entryAddr (t (entryAddr (t (entryAddr (t root (level4Idx page))) (level3Idx page)))
    (level2Idx page))

/-- The whole level-4/3/2 chain of `page` is present in arena `t`. -/
def chainPresent (t : Nat → Nat → Nat) (root page : Nat) : Prop :=
  entryPresent (t root (level4Idx page)) = true ∧
  entryPresent (t (entryAddr (t root (level4Idx page))) (level3Idx page)) = true ∧
  entryPresent (t (entryAddr (t (entryAddr (t root (level4Idx page))) (level3Idx page)))
    (level2Idx page)) = true

/-- The leaf slot of page `pk` collides with none of the three chain slots of
page `pj` (needed so writing the leaf entry of `pk` cannot disturb the walk
for `pj`). -/
def ChainDisjoint (t : Nat → Nat → Nat) (root pk pj : Nat) : Prop :=
  ¬(leafTable t root pk = root ∧ level1Idx pk = level4Idx pj) ∧
  ¬(leafTable t root pk = entryAddr (t root (level4Idx pj)) ∧
    level1Idx pk = level3Idx pj) ∧
  ¬(leafTable t root pk = entryAddr (t (entryAddr (t root (level4Idx pj))) (level3Idx pj)) ∧
    level1Idx pk = level2Idx pj)

lemma setEntry_same (t : Nat → Nat → Nat) (a i v : Nat) : setEntry t a i v a i = v := by
  unfold setEntry
  rw [if_pos ⟨rfl, rfl⟩]

lemma setEntry_other (t : Nat → Nat → Nat) (a i v a2 i2 : Nat)
    (h : ¬(a2 = a ∧ i2 = i)) : setEntry t a i v a2 i2 = t a2 i2 := by
  unfold setEntry
  rw [if_neg h]

/-- When the whole chain of `page` is already present and the state agrees
with the initial arena on the three chain slots, map_page_unchecked creates
nothing and writes exactly the leaf slot. -/
lemma map_page_chain_present (m0 m : MachineState) (page phy : Nat)
    (hal : phy % PAGE_SIZE = 0)
    (hroot : m.root = m0.root)
    (h4 : m.tables m0.root (level4Idx page) = m0.tables m0.root (level4Idx page))
    (h3 : m.tables (entryAddr (m0.tables m0.root (level4Idx page))) (level3Idx page) =
      m0.tables (entryAddr (m0.tables m0.root (level4Idx page))) (level3Idx page))
    (h2 : m.tables (entryAddr (m0.tables (entryAddr (m0.tables m0.root (level4Idx page)))
        (level3Idx page))) (level2Idx page) =
      m0.tables (entryAddr (m0.tables (entryAddr (m0.tables m0.root (level4Idx page)))
        (level3Idx page))) (level2Idx page))
    (hch : chainPresent m0.tables m0.root page) :
    map_page_unchecked m page phy (FLAG_PRESENT ||| FLAG_WRITABLE) =
      some { m with
             tables := setEntry m.tables (leafTable m0.tables m0.root page)
               (level1Idx page) (phy ||| (FLAG_PRESENT ||| FLAG_WRITABLE)) } := by
  obtain ⟨hc4, hc3, hc2⟩ := hch
  have h4m : m.tables m.root (level4Idx page) = m0.tables m0.root (level4Idx page) := by
    rw [hroot]; exact h4
  unfold map_page_unchecked
  rw [if_pos hal]
  have hens4 : ensureEntry m m.root (level4Idx page) (FLAG_PRESENT ||| FLAG_WRITABLE) =
      some m := by
    unfold ensureEntry
    rw [h4m, if_pos hc4]
  rw [hens4]
  simp only []
  rw [h4m]
  have hens3 : ensureEntry m (entryAddr (m0.tables m0.root (level4Idx page)))
      (level3Idx page) (FLAG_PRESENT ||| FLAG_WRITABLE) = some m := by
    unfold ensureEntry
    rw [h3, if_pos hc3]
  rw [hens3]
  simp only []
  rw [h3]
  have hens2 : ensureEntry m
      (entryAddr (m0.tables (entryAddr (m0.tables m0.root (level4Idx page)))
        (level3Idx page)))
      (level2Idx page) (FLAG_PRESENT ||| FLAG_WRITABLE) = some m := by
    unfold ensureEntry
    rw [h2, if_pos hc2]
  rw [hens2]
  simp only []
  rw [h2]
  rfl

/-- Under the same agreement hypotheses, page_entry_mut_loc lands on the leaf
slot of the page. -/
lemma mut_loc_chain_present (m0 m : MachineState) (page : Nat)
    (hroot : m.root = m0.root)
    (h4 : m.tables m0.root (level4Idx page) = m0.tables m0.root (level4Idx page))
    (h3 : m.tables (entryAddr (m0.tables m0.root (level4Idx page))) (level3Idx page) =
      m0.tables (entryAddr (m0.tables m0.root (level4Idx page))) (level3Idx page))
    (h2 : m.tables (entryAddr (m0.tables (entryAddr (m0.tables m0.root (level4Idx page)))
        (level3Idx page))) (level2Idx page) =
      m0.tables (entryAddr (m0.tables (entryAddr (m0.tables m0.root (level4Idx page)))
        (level3Idx page))) (level2Idx page))
    (hch : chainPresent m0.tables m0.root page) :
    page_entry_mut_loc m.tables m.root page =
      some (leafTable m0.tables m0.root page, level1Idx page) := by
  obtain ⟨hc4, hc3, hc2⟩ := hch
  have h4m : m.tables m.root (level4Idx page) = m0.tables m0.root (level4Idx page) := by
    rw [hroot]; exact h4
  unfold page_entry_mut_loc
  rw [h4m, if_pos hc4, h3, if_pos hc3, h2, if_pos hc2]
  rfl

/-- If the bitmap is the initial one extended by fewer than n set bits and at
least n bits below BITMAP_SIZE are clear in the initial bitmap (not necessarily
contiguous), some bit below BITMAP_SIZE is still clear. -/
lemma exists_fresh_bit (b0 : Nat → Bool) (n kk : Nat) (fr : Nat → Nat)
    (bm : Nat → Bool) (hkk : kk < n) (F : Finset Nat) (hFcard : n ≤ F.card)
    (hF : ∀ j ∈ F, j < BITMAP_SIZE ∧ b0 j = false)
    (hbm : ∀ x, bm x = true ↔ ((∃ jj, jj < kk ∧ fr jj = x) ∨ b0 x = true)) :
    ∃ x, x < BITMAP_SIZE ∧ bm x = false := by
  by_contra hno
  push_neg at hno
  have hall : ∀ x, x < BITMAP_SIZE → bm x = true := by
    intro x hx
    cases hb : bm x
    · exact absurd hb (hno x hx)
    · rfl
  have hsub : F ⊆ (Finset.range kk).image fr := by
    intro x hx
    obtain ⟨hxlt, hxb0⟩ := hF x hx
    have hbx := (hbm x).mp (hall x hxlt)
    rcases hbx with ⟨jj, hjj, hfr⟩ | hb0
    · rw [Finset.mem_image]
      exact ⟨jj, by rw [Finset.mem_range]; exact hjj, hfr⟩
    · rw [hxb0] at hb0
      exact absurd hb0 (by simp)
  have hcard := Finset.card_le_card hsub
  have himg : ((Finset.range kk).image fr).card ≤ kk := by
    refine le_trans (Finset.card_image_le) ?_
    rw [Finset.card_range]
  omega

lemma if_refl_nat {α : Sort _} (a : Nat) (v w : α) : (if a = a then v else w) = v :=
  if_pos rfl

/-- Invariant of the alloc_pages mapping loop after `kk` of the run's pages
have been processed: the bitmap is the initial one plus the `kk` fresh frames
`fr 0 .. fr (kk-1)`, the leaf slots of the processed pages hold their frames
with PRESENT|WRITABLE, and every other slot still holds its initial value. -/
def AllocInv (m0 : MachineState) (first last2 : Nat) (m : MachineState) (kk : Nat)
    (fr : Nat → Nat) : Prop :=
  (∀ x, m.phys.bitmap x = true ↔
      ((∃ jj, jj < kk ∧ fr jj = x) ∨ m0.phys.bitmap x = true)) ∧
  (∀ jj1 jj2, jj1 < kk → jj2 < kk → jj1 ≠ jj2 → fr jj1 ≠ fr jj2) ∧
  (∀ jj, jj < kk → fr jj < BITMAP_SIZE ∧ m0.phys.bitmap (fr jj) = false) ∧
  m.phys.offset = m0.phys.offset ∧ m.phys.limit = m0.phys.limit ∧
  m.root = m0.root ∧ m.lastPageAlloc = last2 ∧
  (∀ jj, jj < kk →
      m.tables (leafTable m0.tables m0.root (first + jj)) (level1Idx (first + jj)) =
        (fr jj * frame_size + m0.phys.offset) ||| (FLAG_PRESENT ||| FLAG_WRITABLE)) ∧
  (∀ a b, (∀ jj, jj < kk → ¬(a = leafTable m0.tables m0.root (first + jj) ∧
      b = level1Idx (first + jj))) → m.tables a b = m0.tables a b)

lemma allocLoop_build (m0 : MachineState) (n first last2 : Nat) (F : Finset Nat)
    (hoff : m0.phys.offset % PAGE_SIZE = 0)
    (hFcard : n ≤ F.card)
    (hF : ∀ j ∈ F, j < BITMAP_SIZE ∧ m0.phys.bitmap j = false)
    (hbound : first + n < MAX_PAGE_CANONICAL_NUM)
    (hchain : ∀ k, k < n → chainPresent m0.tables m0.root (first + k))
    (halias1 : ∀ k j, k < n → j < n → k ≠ j →
        ¬(leafTable m0.tables m0.root (first + k) = leafTable m0.tables m0.root (first + j) ∧
          level1Idx (first + k) = level1Idx (first + j)))
    (halias2 : ∀ k j, k < n → j < n →
        ChainDisjoint m0.tables m0.root (first + k) (first + j)) :
    ∀ c kk m fr, kk + c = n → AllocInv m0 first last2 m kk fr →
      ∃ m' fr', (∀ jj, jj < kk → fr' jj = fr jj) ∧ AllocInv m0 first last2 m' n fr' ∧
        allocPagesLoop m (first + kk) c = some m' := by
  intro c
  induction c with
  | zero =>
      intro kk m fr hkc hinv
      have hkn : kk = n := by omega
      subst hkn
      exact ⟨m, fr, fun _ _ => rfl, hinv, rfl⟩
  | succ c ih =>
      intro kk m fr hkc hinv
      obtain ⟨hbm, hdst, hfrp, hofs, hlim, hroot, hlast, hleaf, hunt⟩ := hinv
      have hkkn : kk < n := by omega
      obtain ⟨x, hxlt, hxfree⟩ := exists_fresh_bit m0.phys.bitmap n kk fr
        m.phys.bitmap hkkn F hFcard hF hbm
      obtain ⟨i, hiSIZE, hifree, halloc⟩ :=
        allocate_frame_of_exists_free m.phys ⟨x, hxlt, hxfree⟩
      have hinotF : ∀ jj, jj < kk → fr jj ≠ i := by
        intro jj hjj he
        have h1 : m.phys.bitmap i = true := (hbm i).mpr (Or.inl ⟨jj, hjj, he⟩)
        rw [h1] at hifree
        exact Bool.noConfusion hifree
      have hib0 : m0.phys.bitmap i = false := by
        cases hb : m0.phys.bitmap i
        · rfl
        · have h1 : m.phys.bitmap i = true := (hbm i).mpr (Or.inr hb)
          rw [h1] at hifree
          exact Bool.noConfusion hifree
      have hal2 : (i * frame_size + m.phys.offset) % PAGE_SIZE = 0 := by
        rw [hofs]
        unfold PAGE_SIZE at hoff
        unfold frame_size PAGE_SIZE
        omega
      -- the state after the frame allocation
      have hstep := map_page_chain_present m0
        { m with phys :=
            { m.phys with bitmap := fun j => if j = i then true else m.phys.bitmap j } }
        (first + kk) (i * frame_size + m.phys.offset) hal2 hroot
        (hunt m0.root (level4Idx (first + kk)) (by
          intro jj hjj hand
          exact (halias2 jj kk (by omega) hkkn).1 ⟨hand.1.symm, hand.2.symm⟩))
        (hunt (entryAddr (m0.tables m0.root (level4Idx (first + kk))))
          (level3Idx (first + kk)) (by
          intro jj hjj hand
          exact (halias2 jj kk (by omega) hkkn).2.1 ⟨hand.1.symm, hand.2.symm⟩))
        (hunt (entryAddr (m0.tables (entryAddr (m0.tables m0.root (level4Idx (first + kk))))
            (level3Idx (first + kk)))) (level2Idx (first + kk)) (by
          intro jj hjj hand
          exact (halias2 jj kk (by omega) hkkn).2.2 ⟨hand.1.symm, hand.2.symm⟩))
        (hchain kk hkkn)
      -- the new frame function and the new state
      have hinv2 : AllocInv m0 first last2
          { m with
            phys := { m.phys with bitmap := fun j => if j = i then true else m.phys.bitmap j }
            tables := setEntry m.tables (leafTable m0.tables m0.root (first + kk))
              (level1Idx (first + kk))
              ((i * frame_size + m.phys.offset) ||| (FLAG_PRESENT ||| FLAG_WRITABLE)) }
          (kk + 1) (fun y => if y = kk then i else fr y) := by
        refine ⟨?_, ?_, ?_, hofs, hlim, hroot, hlast, ?_, ?_⟩
        · intro z
          show (if z = i then true else m.phys.bitmap z) = true ↔
            ((∃ jj, jj < kk + 1 ∧ (if jj = kk then i else fr jj) = z) ∨
              m0.phys.bitmap z = true)
          constructor
          · intro hbz
            by_cases hz : z = i
            · exact Or.inl ⟨kk, by omega, by rw [if_refl_nat]; exact hz.symm⟩
            · rw [if_neg hz] at hbz
              rcases (hbm z).mp hbz with ⟨jj, hjj, hfr⟩ | hb0
              · exact Or.inl ⟨jj, by omega,
                  by rw [if_neg (show ¬ jj = kk by omega)]; exact hfr⟩
              · exact Or.inr hb0
          · intro hin
            by_cases hz : z = i
            · rw [if_pos hz]
            · rw [if_neg hz]
              rcases hin with ⟨jj, hjj, hfr⟩ | hb0
              · by_cases hjk : jj = kk
                · rw [hjk, if_refl_nat] at hfr
                  exact absurd hfr.symm hz
                · rw [if_neg hjk] at hfr
                  exact (hbm z).mpr (Or.inl ⟨jj, by omega, hfr⟩)
              · exact (hbm z).mpr (Or.inr hb0)
        · intro jj1 jj2 h1 h2 hne
          show ¬ (if jj1 = kk then i else fr jj1) = (if jj2 = kk then i else fr jj2)
          by_cases ha : jj1 = kk
          · rw [ha, if_refl_nat, if_neg (show ¬ jj2 = kk by omega)]
            exact fun he => hinotF jj2 (by omega) he.symm
          · rw [if_neg ha]
            by_cases hb : jj2 = kk
            · rw [hb, if_refl_nat]
              exact hinotF jj1 (by omega)
            · rw [if_neg hb]
              exact hdst jj1 jj2 (by omega) (by omega) hne
        · intro jj hjj
          show (if jj = kk then i else fr jj) < BITMAP_SIZE ∧
            m0.phys.bitmap (if jj = kk then i else fr jj) = false
          by_cases hj : jj = kk
          · rw [hj, if_refl_nat]
            exact ⟨hiSIZE, hib0⟩
          · rw [if_neg hj]
            exact hfrp jj (by omega)
        · intro jj hjj
          show setEntry m.tables (leafTable m0.tables m0.root (first + kk))
              (level1Idx (first + kk))
              ((i * frame_size + m.phys.offset) ||| (FLAG_PRESENT ||| FLAG_WRITABLE))
              (leafTable m0.tables m0.root (first + jj)) (level1Idx (first + jj)) =
            ((if jj = kk then i else fr jj) * frame_size + m0.phys.offset) |||
              (FLAG_PRESENT ||| FLAG_WRITABLE)
          by_cases hj : jj = kk
          · rw [hj, if_refl_nat, setEntry_same, hofs]
          · rw [if_neg hj, setEntry_other _ _ _ _ _ _ (halias1 jj kk (by omega) hkkn hj),
                hleaf jj (by omega)]
        · intro a b hguard
          show setEntry m.tables (leafTable m0.tables m0.root (first + kk))
              (level1Idx (first + kk))
              ((i * frame_size + m.phys.offset) ||| (FLAG_PRESENT ||| FLAG_WRITABLE))
              a b = m0.tables a b
          rw [setEntry_other _ _ _ _ _ _ (hguard kk (by omega)),
              hunt a b (fun jj hjj => hguard jj (by omega))]
      obtain ⟨m', fr2, hext, hinvN, hloop⟩ := ih (kk + 1) _ _ (by omega) hinv2
      refine ⟨m', fr2, ?_, hinvN, ?_⟩
      · intro jj hjj
        rw [hext jj (by omega)]
        show (if jj = kk then i else fr jj) = fr jj
        rw [if_neg (show ¬ jj = kk by omega)]
      · rw [allocPagesLoop]
        rw [if_pos (show canonicalNum (first + kk) + 1 < MAX_PAGE_CANONICAL_NUM by
          rw [canonicalNum_small _ (by omega)]
          omega)]
        rw [halloc]
        simp only []
        rw [hstep]
        simp only []
        rw [show first + kk + 1 = first + (kk + 1) by omega]
        exact hloop

/-- Invariant of the dealloc_pages loop after `dd` of the run's pages have
been processed: the bitmap still holds the not-yet-freed frames, the first
`dd` leaf slots are cleared, the remaining leaf slots still hold their
frames, and every other slot holds its initial value. -/
def DeallocInv (m0 : MachineState) (first n : Nat) (fr : Nat → Nat)
    (m : MachineState) (dd : Nat) : Prop :=
  (∀ x, m.phys.bitmap x = true ↔
      ((∃ jj, dd ≤ jj ∧ jj < n ∧ fr jj = x) ∨ m0.phys.bitmap x = true)) ∧
  m.phys.offset = m0.phys.offset ∧ m.phys.limit = m0.phys.limit ∧ m.root = m0.root ∧
  (∀ jj, dd ≤ jj → jj < n →
      m.tables (leafTable m0.tables m0.root (first + jj)) (level1Idx (first + jj)) =
        (fr jj * frame_size + m0.phys.offset) ||| (FLAG_PRESENT ||| FLAG_WRITABLE)) ∧
  (∀ jj, jj < dd →
      m.tables (leafTable m0.tables m0.root (first + jj)) (level1Idx (first + jj)) = 0) ∧
  (∀ a b, (∀ jj, jj < n → ¬(a = leafTable m0.tables m0.root (first + jj) ∧
      b = level1Idx (first + jj))) → m.tables a b = m0.tables a b)

lemma deallocLoop_build (m0 : MachineState) (n first : Nat) (fr : Nat → Nat)
    (hoff : m0.phys.offset % PAGE_SIZE = 0)
    (hoffb : m0.phys.offset + 2 ^ 35 ≤ 2 ^ 52)
    (hbound : first + n < MAX_PAGE_CANONICAL_NUM)
    (hchain : ∀ k, k < n → chainPresent m0.tables m0.root (first + k))
    (halias1 : ∀ k j, k < n → j < n → k ≠ j →
        ¬(leafTable m0.tables m0.root (first + k) = leafTable m0.tables m0.root (first + j) ∧
          level1Idx (first + k) = level1Idx (first + j)))
    (halias2 : ∀ k j, k < n → j < n →
        ChainDisjoint m0.tables m0.root (first + k) (first + j))
    (hdst : ∀ jj1 jj2, jj1 < n → jj2 < n → jj1 ≠ jj2 → fr jj1 ≠ fr jj2)
    (hfrp : ∀ jj, jj < n → fr jj < BITMAP_SIZE ∧ m0.phys.bitmap (fr jj) = false) :
    ∀ c dd m, dd + c = n → DeallocInv m0 first n fr m dd →
      ∃ m2, DeallocInv m0 first n fr m2 n ∧
        deallocPagesLoop m (first + dd) c = some m2 := by
  have h35 : (2 : Nat) ^ 35 = 34359738368 := by norm_num
  have h52 : (2 : Nat) ^ 52 = 4503599627370496 := by norm_num
  intro c
  induction c with
  | zero =>
      intro dd m hdc hinv
      have hdn : dd = n := by omega
      subst hdn
      exact ⟨m, hinv, rfl⟩
  | succ c ih =>
      intro dd m hdc hinv
      obtain ⟨hbm, hofs, hlim, hroot, hleafv, hleaf0, hunt⟩ := hinv
      have hddn : dd < n := by omega
      have hloc := mut_loc_chain_present m0 m (first + dd) hroot
        (hunt m0.root (level4Idx (first + dd)) (fun jj hjj hand =>
          (halias2 jj dd hjj hddn).1 ⟨hand.1.symm, hand.2.symm⟩))
        (hunt (entryAddr (m0.tables m0.root (level4Idx (first + dd))))
          (level3Idx (first + dd)) (fun jj hjj hand =>
          (halias2 jj dd hjj hddn).2.1 ⟨hand.1.symm, hand.2.symm⟩))
        (hunt (entryAddr (m0.tables (entryAddr (m0.tables m0.root (level4Idx (first + dd))))
            (level3Idx (first + dd)))) (level2Idx (first + dd)) (fun jj hjj hand =>
          (halias2 jj dd hjj hddn).2.2 ⟨hand.1.symm, hand.2.symm⟩))
        (hchain dd hddn)
      have hval := hleafv dd (le_refl dd) hddn
      have hfrdd := hfrp dd hddn
      have hal2 : (fr dd * frame_size + m0.phys.offset) % PAGE_SIZE = 0 := by
        unfold PAGE_SIZE at hoff
        unfold frame_size PAGE_SIZE
        omega
      have haddr : entryAddr ((fr dd * frame_size + m0.phys.offset) |||
          (FLAG_PRESENT ||| FLAG_WRITABLE)) = fr dd * frame_size + m0.phys.offset := by
        refine entryAddr_lor_pw _ hal2 ?_
        unfold BITMAP_SIZE at hfrdd
        unfold frame_size
        omega
      have hidx : (fr dd * frame_size + m0.phys.offset - m.phys.offset) / frame_size =
          fr dd := by
        rw [hofs]
        unfold frame_size
        omega
      have hfree2 : free_frame m.phys (fr dd * frame_size + m0.phys.offset) =
          some { m.phys with
                 bitmap := fun j => if j = fr dd then false else m.phys.bitmap j } := by
        have hh := free_frame_eq m.phys (fr dd * frame_size + m0.phys.offset) hal2
          (by rw [hofs]; omega)
          (by rw [hidx]; exact hfrdd.1)
          (by rw [hidx]; exact (hbm (fr dd)).mpr (Or.inl ⟨dd, le_refl dd, hddn, rfl⟩))
        rw [hidx] at hh
        exact hh
      have hinv2 : DeallocInv m0 first n fr
          { m with
            phys := { m.phys with
                      bitmap := fun j => if j = fr dd then false else m.phys.bitmap j }
            tables := setEntry m.tables (leafTable m0.tables m0.root (first + dd))
              (level1Idx (first + dd)) 0 }
          (dd + 1) := by
        refine ⟨?_, hofs, hlim, hroot, ?_, ?_, ?_⟩
        · intro z
          show (if z = fr dd then false else m.phys.bitmap z) = true ↔ _
          by_cases hz : z = fr dd
          · rw [if_pos hz]
            constructor
            · intro hfalse
              exact absurd hfalse (by simp)
            · rintro (⟨jj, hj1, hj2, hfj⟩ | hb0)
              · exact absurd (hfj.trans hz) (hdst jj dd hj2 hddn (by omega))
              · exact absurd hb0 (by rw [hz, hfrdd.2]; simp)
          · rw [if_neg hz]
            rw [hbm z]
            constructor
            · rintro (⟨jj, hj1, hj2, hfj⟩ | hb0)
              · have hjd : jj ≠ dd := by
                  intro he
                  subst he
                  exact hz hfj.symm
                exact Or.inl ⟨jj, by omega, hj2, hfj⟩
              · exact Or.inr hb0
            · rintro (⟨jj, hj1, hj2, hfj⟩ | hb0)
              · exact Or.inl ⟨jj, by omega, hj2, hfj⟩
              · exact Or.inr hb0
        · intro jj hj1 hj2
          show setEntry m.tables (leafTable m0.tables m0.root (first + dd))
              (level1Idx (first + dd)) 0
              (leafTable m0.tables m0.root (first + jj)) (level1Idx (first + jj)) = _
          rw [setEntry_other _ _ _ _ _ _
              (halias1 jj dd hj2 hddn (by omega))]
          exact hleafv jj (by omega) hj2
        · intro jj hjj
          by_cases hj : jj = dd
          · subst hj
            show setEntry m.tables (leafTable m0.tables m0.root (first + jj))
              (level1Idx (first + jj)) 0 _ _ = 0
            rw [setEntry_same]
          · show setEntry m.tables (leafTable m0.tables m0.root (first + dd))
              (level1Idx (first + dd)) 0
              (leafTable m0.tables m0.root (first + jj)) (level1Idx (first + jj)) = 0
            rw [setEntry_other _ _ _ _ _ _
                (halias1 jj dd (by omega) hddn hj)]
            exact hleaf0 jj (by omega)
        · intro a b hguard
          show setEntry m.tables (leafTable m0.tables m0.root (first + dd))
              (level1Idx (first + dd)) 0 a b = m0.tables a b
          rw [setEntry_other _ _ _ _ _ _ (hguard dd hddn),
              hunt a b hguard]
      obtain ⟨m2, hinvN, hloop⟩ := ih (dd + 1) _ (by omega) hinv2
      refine ⟨m2, hinvN, ?_⟩
      rw [deallocPagesLoop]
      rw [if_pos (show canonicalNum (first + dd) + 1 < MAX_PAGE_CANONICAL_NUM by
        rw [canonicalNum_small _ (by omega)]
        omega)]
      rw [hloc]
      simp only []
      rw [hval, haddr, hfree2]
      simp only []
      rw [show first + dd + 1 = first + (dd + 1) by omega]
      exact hloop

/-- C1 (amended): on any state where the free-run search succeeds on a run
of n pages whose level-4/3/2 chains are already present (so mapping creates
no intermediate tables), whose leaf slots are pairwise distinct and disjoint
from all the chain slots, with at least n free frames remaining anywhere in
the bitmap (not necessarily contiguous), an aligned and bounded offset, and
the run clear of the canonical boundary, alloc_pages(n) succeeds and an
immediate dealloc_pages of the result restores the physical-frame bitmap
exactly and every page-table presence bit to its pre-allocation value. -/
theorem C1_alloc_dealloc_restore (m0 : MachineState) (n first last0 : Nat)
    (hn : 1 ≤ n)
    (hoff : m0.phys.offset % PAGE_SIZE = 0)
    (hoffb : m0.phys.offset + 2 ^ 35 ≤ 2 ^ 52)
    (havail : ∃ F : Finset Nat, n ≤ F.card ∧
        ∀ j ∈ F, j < BITMAP_SIZE ∧ m0.phys.bitmap j = false)
    (hfind : find_free_pages (fun p => is_present m0.tables m0.root p)
        m0.lastPageAlloc n = some (first, last0))
    (hbound : first + n < MAX_PAGE_CANONICAL_NUM)
    (hchain : ∀ k, k < n → chainPresent m0.tables m0.root (first + k))
    (halias1 : ∀ k j, k < n → j < n → k ≠ j →
        ¬(leafTable m0.tables m0.root (first + k) = leafTable m0.tables m0.root (first + j) ∧
          level1Idx (first + k) = level1Idx (first + j)))
    (halias2 : ∀ k j, k < n → j < n →
        ChainDisjoint m0.tables m0.root (first + k) (first + j)) :
    ∃ m1 m2,
      alloc_pages m0 n = some (some ⟨first, n⟩, m1) ∧
      dealloc_pages m1 ⟨first, n⟩ = some m2 ∧
      (∀ j, m2.phys.bitmap j = m0.phys.bitmap j) ∧
      (∀ a b, entryPresent (m2.tables a b) = entryPresent (m0.tables a b)) := by
  obtain ⟨F, hFcard, hF⟩ := havail
  obtain ⟨hlast, hfreerun⟩ := find_free_pages_run _ _ _ _ _ hn hfind
  subst hlast
  have hleafpres : ∀ k, k < n →
      entryPresent (m0.tables (leafTable m0.tables m0.root (first + k))
        (level1Idx (first + k))) = false := by
    intro k hk
    have hip := hfreerun k hk
    obtain ⟨hc4, hc3, hc2⟩ := hchain k hk
    unfold is_present page_entry at hip
    rw [if_pos hc4, if_pos hc3] at hip
    by_cases hh : entryHuge (m0.tables (entryAddr (m0.tables (entryAddr
        (m0.tables m0.root (level4Idx (first + k)))) (level3Idx (first + k))))
        (level2Idx (first + k))) = true
    · rw [if_pos hh] at hip
      exact absurd hip (by simp)
    · rw [if_neg hh, if_pos hc2] at hip
      exact hip
  have hInv0 : AllocInv m0 first (first + n - 1)
      { m0 with lastPageAlloc := first + n - 1 } 0 (fun _ => 0) := by
    refine ⟨?_, ?_, ?_, rfl, rfl, rfl, rfl, ?_, ?_⟩
    · intro x
      constructor
      · intro hx
        exact Or.inr hx
      · rintro (⟨jj, hjj, _⟩ | hb0)
        · omega
        · exact hb0
    · intro jj1 jj2 h1 _ _
      omega
    · intro jj hjj
      omega
    · intro jj hjj
      omega
    · intro a b _
      rfl
  obtain ⟨m1, fr, _, hInvN, hloop⟩ := allocLoop_build m0 n first (first + n - 1) F
    hoff hFcard hF hbound hchain halias1 halias2 n 0
    { m0 with lastPageAlloc := first + n - 1 } (fun _ => 0) (by omega) hInv0
  obtain ⟨hbmN, hdstN, hfrpN, hofsN, hlimN, hrootN, hlastN, hleafN, huntN⟩ := hInvN
  rw [Nat.add_zero] at hloop
  have halloceq : alloc_pages m0 n = some (some ⟨first, n⟩, m1) := by
    unfold alloc_pages
    rw [hfind]
    simp only []
    rw [show first + n - 1 + 1 - first = n by omega]
    rw [hloop]
  have hInvD0 : DeallocInv m0 first n fr m1 0 := by
    refine ⟨?_, hofsN, hlimN, hrootN, ?_, ?_, huntN⟩
    · intro x
      rw [hbmN x]
      constructor
      · rintro (⟨jj, hjj, hfj⟩ | hb0)
        · exact Or.inl ⟨jj, by omega, hjj, hfj⟩
        · exact Or.inr hb0
      · rintro (⟨jj, _, hjj, hfj⟩ | hb0)
        · exact Or.inl ⟨jj, hjj, hfj⟩
        · exact Or.inr hb0
    · intro jj _ hjj
      exact hleafN jj hjj
    · intro jj hjj
      omega
  obtain ⟨m2, hInvDN, hdloop⟩ := deallocLoop_build m0 n first fr hoff hoffb hbound
    hchain halias1 halias2 hdstN hfrpN n 0 m1 (by omega) hInvD0
  rw [Nat.add_zero] at hdloop
  have hdealloceq : dealloc_pages m1 ⟨first, n⟩ = some m2 := by
    show (if n = 0 then none
      else match nextBy first (n - 1) with
      | none => none
      | some last2 => deallocPagesLoop m1 first (last2 + 1 - first)) = some m2
    rw [if_neg (show ¬ n = 0 by omega)]
    unfold nextBy
    rw [if_pos (show canonicalNum first + (n - 1) < MAX_PAGE_CANONICAL_NUM by
      rw [canonicalNum_small _ (by omega)]
      omega)]
    simp only []
    rw [show first + (n - 1) + 1 - first = n by omega]
    exact hdloop
  obtain ⟨hbm2, _, _, _, hlv2, hl02, hunt2⟩ := hInvDN
  refine ⟨m1, m2, halloceq, hdealloceq, ?_, ?_⟩
  · intro j
    cases hb2 : m2.phys.bitmap j with
    | false =>
        cases hb0 : m0.phys.bitmap j with
        | false => rfl
        | true =>
            have hh := (hbm2 j).mpr (Or.inr hb0)
            rw [hb2] at hh
            exact absurd hh (by simp)
    | true =>
        have hh := (hbm2 j).mp hb2
        rcases hh with ⟨jj, hj1, hj2, _⟩ | hb0
        · omega
        · exact hb0.symm
  · intro a b
    by_cases hsl : ∃ jj, jj < n ∧ a = leafTable m0.tables m0.root (first + jj) ∧
        b = level1Idx (first + jj)
    · obtain ⟨jj, hjj, ha, hb⟩ := hsl
      subst ha
      subst hb
      rw [hl02 jj hjj, entryPresent_zero, hleafpres jj hjj]
    · have hg : ∀ jj, jj < n → ¬(a = leafTable m0.tables m0.root (first + jj) ∧
          b = level1Idx (first + jj)) := fun jj hjj hand => hsl ⟨jj, hjj, hand.1, hand.2⟩
      rw [hunt2 a b hg]

/-- A fresh machine whose page table is completely empty, so mapping any page
forces alloc_pages to create level-3/2/1 tables. -/
def CE1 : MachineState where
  phys := { bitmap := fun _ => false, offset := 0, limit := 0 }
  lastPageAlloc := 1
  root := 0x100000
  tables := fun _ _ => 0
  vmem := fun _ => 0

/-- Counterexample to C1 as stated: with an empty page table, alloc_pages(1)
succeeds after creating three intermediate tables (frames 1, 2, 3), and
dealloc_pages frees only the leaf frame, so the bitmap keeps bits 1-3 set
and the root's level-4 entry stays present — neither the bitmap nor the
presence bits are restored. -/
theorem C1_counterexample :
    ∃ m1 m2, alloc_pages CE1 1 = some (some ⟨1, 1⟩, m1) ∧
      dealloc_pages m1 ⟨1, 1⟩ = some m2 ∧
      m2.phys.bitmap 1 = true ∧ CE1.phys.bitmap 1 = false ∧
      entryPresent (m2.tables CE1.root 0) = true ∧
      entryPresent (CE1.tables CE1.root 0) = false :=
  ⟨_, _, rfl, rfl, rfl, rfl, rfl, rfl⟩

/-- A machine with the full level-4/3/2 chain for page 1 already present
(tables at 0x101000, 0x102000, 0x103000) and a clear bitmap. -/
def W1 : MachineState where
  phys := { bitmap := fun _ => false, offset := 0, limit := 0 }
  lastPageAlloc := 1
  root := 0x100000
  tables := T3
  vmem := fun _ => 0

/-- Witness for the amended C1: on the chain-present machine, alloc_pages(1)
followed by dealloc_pages restores the bitmap and all presence bits. -/
theorem C1_witness :
    ∃ m1 m2, alloc_pages W1 1 = some (some ⟨1, 1⟩, m1) ∧
      dealloc_pages m1 ⟨1, 1⟩ = some m2 ∧
      (∀ j, m2.phys.bitmap j = W1.phys.bitmap j) ∧
      (∀ a b, entryPresent (m2.tables a b) = entryPresent (W1.tables a b)) :=
  C1_alloc_dealloc_restore W1 1 1 1
    (by decide)
    (by decide)
    (by decide)
    ⟨{0}, by decide, fun j hj => by
      rw [Finset.mem_singleton] at hj
      subst hj
      exact ⟨by decide, rfl⟩⟩
    rfl
    (by decide)
    (fun k hk => by
      have hk0 : k = 0 := by omega
      subst hk0
      exact ⟨by decide, by decide, by decide⟩)
    (fun k j hk hj hne => by omega)
    (fun k j hk hj => by
      have hk0 : k = 0 := by omega
      have hj0 : j = 0 := by omega
      subst hk0
      subst hj0
      exact ⟨by decide, by decide, by decide⟩)

end OsTest
